import Mathlib

/-!
Shallow embedding of the WSlogviewer normalization and filtering engine
(`src/app/app.component.ts`, final revision) together with proofs about the
claims of its specification.

Modelling conventions:
- JavaScript strings are modelled as Lean `String` (lists of characters);
  `toUpperCase`/`toLowerCase` are modelled by ASCII-correct character maps,
  `trim` by dropping JavaScript whitespace from both ends, and
  `String.prototype.includes` by a list-infix test.
- JSON numbers are modelled as integers (`Int`): the log exports the program
  consumes carry integral epoch values, and every number the claims mention is
  an integer that IEEE doubles represent exactly.  `Number.isFinite` is
  therefore constantly true and `Math.trunc` is the identity in this model.
- JavaScript objects produced by `JSON.parse` are modelled as association
  lists in key-insertion order (the enumeration order of such objects);
  property access is first-match lookup, `Object.entries`/`values`/`keys`
  read the list in order.
- `undefined` does not occur inside `JSON.parse` output, so a missing object
  property is represented by `Option.none`.
-/

namespace WSLog

/-! ## Decimal rendering of numbers (model of JavaScript number-to-string) -/

/-- The decimal digit character for a value `0 ≤ n ≤ 9`. -/
def digitChar : Nat → Char
  | 0 => '0' | 1 => '1' | 2 => '2' | 3 => '3' | 4 => '4'
  | 5 => '5' | 6 => '6' | 7 => '7' | 8 => '8' | _ => '9'

/-- Numeric value of a decimal digit character. -/
def digitVal (c : Char) : Nat := c.toNat - 48

/-- Digit accumulation loop for decimal rendering, fuel-indexed so the
kernel can evaluate it (`natDigits` supplies ample fuel). -/
def natToDecimalAux : Nat → Nat → List Char → List Char
  | 0, _, acc => acc
  | fuel + 1, n, acc =>
    if n < 10 then digitChar (n % 10) :: acc
    else natToDecimalAux fuel (n / 10) (digitChar (n % 10) :: acc)

/-- Decimal digit list of a natural number, most significant first.
Models the JavaScript decimal rendering of a non-negative integer. -/
def natDigits (n : Nat) : List Char := natToDecimalAux (n + 1) n []

/-- Decimal string of a natural number. -/
def natToDecimal (n : Nat) : String := String.mk (natDigits n)

/-- Decimal string of an integer, with a leading minus sign when negative.
Models `String(n)` for an integral JavaScript number. -/
def intToDecimal (i : Int) : String :=
  if i < 0 then String.mk ('-' :: natDigits i.natAbs) else natToDecimal i.toNat

/-- Decimal value of a digit-character list, most significant first. -/
def decValOf (cs : List Char) : Nat := cs.foldl (fun a c => 10 * a + digitVal c) 0

/-! ## The JSON value model -/

/-- Parsed JSON value (`RawDocument` of the spec): the shape `JSON.parse`
produces, with objects as association lists in key-insertion order and
numbers as integers (see the module comment). -/
inductive JsonValue where
  | null
  | bool (b : Bool)
  | num (n : Int)
  | str (s : String)
  | arr (elems : List JsonValue)
  | obj (entries : List (String × JsonValue))

mutual
/-- Structural size used as parser fuel accounting. -/
def jsize : JsonValue → Nat
  | .null => 1
  | .bool _ => 1
  | .num _ => 1
  | .str s => s.data.length + 2
  | .arr elems => 2 + jsizeElems elems
  | .obj entries => 2 + jsizeMembers entries

/-- Combined size of array elements, one extra unit per element. -/
def jsizeElems : List JsonValue → Nat
  | [] => 0
  | x :: xs => jsize x + 1 + jsizeElems xs

/-- Combined size of object members, with the member key's parse budget. -/
def jsizeMembers : List (String × JsonValue) → Nat
  | [] => 0
  | kv :: kvs => kv.1.data.length + 2 + (jsize kv.2 + 1) + jsizeMembers kvs
end

/-! ## JSON serialization (model of JSON.stringify) -/

/-- The hexadecimal digit character for a value `0 ≤ n ≤ 15` (lowercase,
as emitted by `JSON.stringify` in `\uXXXX` escapes). -/
def hexDigitChar : Nat → Char
  | 0 => '0' | 1 => '1' | 2 => '2' | 3 => '3' | 4 => '4'
  | 5 => '5' | 6 => '6' | 7 => '7' | 8 => '8' | 9 => '9'
  | 10 => 'a' | 11 => 'b' | 12 => 'c' | 13 => 'd' | 14 => 'e' | _ => 'f'

/-- Escape one character of a JSON string, per the `QuoteJSONString`
algorithm of `JSON.stringify`. -/
def jsonEscapeChar (c : Char) : List Char :=
  if c = '"' then ['\\', '"']
  else if c = '\\' then ['\\', '\\']
  else if c = '\x08' then ['\\', 'b']
  else if c = '\x09' then ['\\', 't']
  else if c = '\x0a' then ['\\', 'n']
  else if c = '\x0c' then ['\\', 'f']
  else if c = '\x0d' then ['\\', 'r']
  else if c.toNat < 32 then
    ['\\', 'u', '0', '0', hexDigitChar (c.toNat / 16), hexDigitChar (c.toNat % 16)]
  else [c]

/-- Escaped character stream of a JSON string body. -/
def jsonEscape (s : String) : List Char := (s.data.map jsonEscapeChar).flatten

/-- Quoted and escaped JSON string literal. -/
def quoteJsonString (s : String) : String :=
  String.mk ('"' :: (jsonEscape s ++ ['"']))

/-- Decimal text of a JSON number (integral in this model). -/
def jsonNumText (n : Int) : String := intToDecimal n

mutual
/-- Compact serialization: `JSON.stringify(value)` with no gap. -/
def compactPrint : JsonValue → String
  | .null => "null"
  | .bool true => "true"
  | .bool false => "false"
  | .num n => jsonNumText n
  | .str s => quoteJsonString s
  | .arr elems => "[" ++ compactPrintElems elems ++ "]"
  | .obj entries => "\x7b" ++ compactPrintMembers entries ++ "\x7d"

/-- Compact serialization of array elements, comma separated. -/
def compactPrintElems : List JsonValue → String
  | [] => ""
  | [x] => compactPrint x
  | x :: xs => compactPrint x ++ "," ++ compactPrintElems xs

/-- Compact serialization of object members, comma separated. -/
def compactPrintMembers : List (String × JsonValue) → String
  | [] => ""
  | [kv] => quoteJsonString kv.1 ++ ":" ++ compactPrint kv.2
  | kv :: kvs => quoteJsonString kv.1 ++ ":" ++ compactPrint kv.2 ++ "," ++
      compactPrintMembers kvs
end

/-- Indentation prefix at a nesting depth for the two-space gap the
component uses (`JSON.stringify(value, null, 2)`). -/
def indentChars (depth : Nat) : List Char := List.replicate (2 * depth) ' '

mutual
/-- Pretty serialization with a two-space gap: `JSON.stringify(value, null, 2)`
at nesting depth `depth`. -/
def prettyPrint (depth : Nat) : JsonValue → String
  | .null => "null"
  | .bool true => "true"
  | .bool false => "false"
  | .num n => jsonNumText n
  | .str s => quoteJsonString s
  | .arr [] => "[]"
  | .arr (x :: xs) => "[\n" ++ prettyPrintElems (depth + 1) (x :: xs) ++ "\n" ++
      String.mk (indentChars depth) ++ "]"
  | .obj [] => "\x7b\x7d"
  | .obj (kv :: kvs) => "\x7b\n" ++ prettyPrintMembers (depth + 1) (kv :: kvs) ++ "\n" ++
      String.mk (indentChars depth) ++ "\x7d"

/-- Pretty serialization of array elements, each on its own indented line. -/
def prettyPrintElems (depth : Nat) : List JsonValue → String
  | [] => ""
  | [x] => String.mk (indentChars depth) ++ prettyPrint depth x
  | x :: xs => String.mk (indentChars depth) ++ prettyPrint depth x ++ ",\n" ++
      prettyPrintElems depth xs

/-- Pretty serialization of object members, each on its own indented line. -/
def prettyPrintMembers (depth : Nat) : List (String × JsonValue) → String
  | [] => ""
  | [kv] => String.mk (indentChars depth) ++ quoteJsonString kv.1 ++ ": " ++
      prettyPrint depth kv.2
  | kv :: kvs => String.mk (indentChars depth) ++ quoteJsonString kv.1 ++ ": " ++
      prettyPrint depth kv.2 ++ ",\n" ++ prettyPrintMembers depth kvs
end

/-! ## JSON parsing (modelled from the spec)

Modelled from the spec: the platform `JSON.parse` used by the load path and
by the widget-catalog reader is not part of the repository; it is modelled
here from the ECMA-404 JSON grammar, restricted to the integral-number model
(a fraction or exponent part fails the parse rather than producing a
non-integral number) and without surrogate-pair combination in `\u` escapes.
The parser is lenient about leading zeros; this does not affect any claim
because the serializer never emits them. -/

/-- JSON insignificant whitespace. -/
def isJsonWs (c : Char) : Bool := c = ' ' || c = '\n' || c = '\t' || c = '\x0d'

/-- Skip insignificant whitespace. -/
def skipWs : List Char → List Char
  | [] => []
  | c :: cs => if isJsonWs c then skipWs cs else c :: cs

/-- Value of a hexadecimal digit character. -/
def hexVal (c : Char) : Option Nat :=
  if 48 ≤ c.toNat ∧ c.toNat ≤ 57 then some (c.toNat - 48)
  else if 97 ≤ c.toNat ∧ c.toNat ≤ 102 then some (c.toNat - 87)
  else if 65 ≤ c.toNat ∧ c.toNat ≤ 70 then some (c.toNat - 55)
  else none

/-- Decode one escape sequence after a backslash: the unescaped character
and the remaining input. -/
def escDecode : List Char → Option (Char × List Char)
  | [] => none
  | e :: cs =>
    if e = '"' then some ('"', cs)
    else if e = '\\' then some ('\\', cs)
    else if e = '/' then some ('/', cs)
    else if e = 'b' then some ('\x08', cs)
    else if e = 'f' then some ('\x0c', cs)
    else if e = 'n' then some ('\x0a', cs)
    else if e = 'r' then some ('\x0d', cs)
    else if e = 't' then some ('\x09', cs)
    else if e = 'u' then
      match cs with
      | h1 :: h2 :: h3 :: h4 :: cs2 =>
        match hexVal h1, hexVal h2, hexVal h3, hexVal h4 with
        | some a, some b, some c3, some d4 =>
          if (((a * 16 + b) * 16 + c3) * 16 + d4).isValidChar then
            some (Char.ofNat (((a * 16 + b) * 16 + c3) * 16 + d4), cs2)
          else none
        | _, _, _, _ => none
      | _ => none
    else none

/-- Parse the body of a JSON string literal after the opening quote,
returning the unescaped characters and the remainder after the closing
quote (fuel-indexed to bound recursion). -/
def parseStringBody : Nat → List Char → Option (List Char × List Char)
  | 0, _ => none
  | fuel + 1, input =>
    match input with
    | [] => none
    | c :: cs =>
      if c = '"' then some ([], cs)
      else if c = '\\' then
        match escDecode cs with
        | some (uc, cs2) =>
          (parseStringBody fuel cs2).map (fun p => (uc :: p.1, p.2))
        | none => none
      else if c.toNat < 32 then none
      else (parseStringBody fuel cs).map (fun p => (c :: p.1, p.2))

/-- Parse a nonempty run of decimal digits as a natural number. -/
def parseNatNum (cs : List Char) : Option (Nat × List Char) :=
  let ds := cs.takeWhile Char.isDigit
  if ds.isEmpty then none else some (decValOf ds, cs.dropWhile Char.isDigit)

mutual
/-- Parse one JSON value (fuel-indexed to bound recursion). -/
def parseValue : Nat → List Char → Option (JsonValue × List Char)
  | 0, _ => none
  | fuel + 1, cs =>
    match skipWs cs with
    | 'n' :: 'u' :: 'l' :: 'l' :: rest => some (.null, rest)
    | 't' :: 'r' :: 'u' :: 'e' :: rest => some (.bool true, rest)
    | 'f' :: 'a' :: 'l' :: 's' :: 'e' :: rest => some (.bool false, rest)
    | '"' :: rest => (parseStringBody fuel rest).map (fun p => (.str (String.mk p.1), p.2))
    | '-' :: rest => (parseNatNum rest).map (fun p => (.num (-(p.1 : Int)), p.2))
    | '[' :: rest => parseArrBody fuel rest
    | '\x7b' :: rest => parseObjBody fuel rest
    | c :: rest =>
      if c.isDigit then (parseNatNum (c :: rest)).map (fun p => (.num (p.1 : Int), p.2))
      else none
    | [] => none

/-- Parse the inside of an array after the opening bracket. -/
def parseArrBody : Nat → List Char → Option (JsonValue × List Char)
  | 0, _ => none
  | fuel + 1, rest =>
    match skipWs rest with
    | ']' :: r => some (.arr [], r)
    | cs2 => (parseElemsLoop fuel cs2).map (fun p => (.arr p.1, p.2))

/-- Parse the inside of an object after the opening brace. -/
def parseObjBody : Nat → List Char → Option (JsonValue × List Char)
  | 0, _ => none
  | fuel + 1, rest =>
    match skipWs rest with
    | '\x7d' :: r => some (.obj [], r)
    | cs2 => (parseMembersLoop fuel cs2).map (fun p => (.obj p.1, p.2))

/-- Parse one or more comma-separated array elements up to the closing
bracket. -/
def parseElemsLoop : Nat → List Char → Option (List JsonValue × List Char)
  | 0, _ => none
  | fuel + 1, cs => do
    let (v, r1) ← parseValue fuel cs
    match skipWs r1 with
    | ',' :: r2 => (parseElemsLoop fuel r2).map (fun p => (v :: p.1, p.2))
    | ']' :: r2 => some ([v], r2)
    | _ => none

/-- Parse one or more comma-separated object members up to the closing
brace. -/
def parseMembersLoop : Nat → List Char → Option (List (String × JsonValue) × List Char)
  | 0, _ => none
  | fuel + 1, cs =>
    match skipWs cs with
    | '"' :: rest => do
      let (k, r1) ← parseStringBody fuel rest
      match skipWs r1 with
      | ':' :: r2 => do
        let (v, r3) ← parseValue fuel r2
        match skipWs r3 with
        | ',' :: r4 => (parseMembersLoop fuel r4).map (fun p => ((String.mk k, v) :: p.1, p.2))
        | '\x7d' :: r4 => some ([(String.mk k, v)], r4)
        | _ => none
      | _ => none
    | _ => none
end

/-- Model of `JSON.parse`: parse a complete document, requiring only
whitespace to remain. -/
def jsonParse (s : String) : Option JsonValue :=
  match parseValue (s.data.length + 1) s.data with
  | some (v, rest) => if skipWs rest = [] then some v else none
  | none => none

/-! ## Round trip: the parser reads back what the printer wrote -/

/-- A character list of insignificant whitespace only. -/
def AllWs (w : List Char) : Prop := ∀ c ∈ w, isJsonWs c = true

/-- True when the list does not begin with a decimal digit, so that a
number literal printed before it cannot absorb its head. -/
def noDigitHead : List Char → Bool
  | [] => true
  | c :: _ => !c.isDigit

/-! ## The component embedding

Shallow embedding of `AppComponent` (final revision of
`src/app/app.component.ts`).  A JavaScript object is a `Record`
(association list); `undefined` is `Option.none`; the mutable component
fields form the `ViewerState` record and each method is a state function. -/

/-- A JavaScript object record: keys in insertion order. -/
def JsRecord := List (String × JsonValue)

/-- Model of `String.prototype.includes`: substring at any position. -/
def jsIncludes (hay needle : String) : Bool := decide (needle.data <:+: hay.data)

/-- Whitespace characters removed by `String.prototype.trim` (the ASCII
portion; the log text this program consumes is ASCII). -/
def isJsTrimWs (c : Char) : Bool :=
  c.toNat == 9 || c.toNat == 10 || c.toNat == 11 || c.toNat == 12 ||
    c.toNat == 13 || c.toNat == 32

/-- Model of `String.prototype.trim`. -/
def jsTrim (s : String) : String :=
  String.mk (((s.data.dropWhile isJsTrimWs).reverse.dropWhile isJsTrimWs).reverse)

/-- Model of `String.prototype.toLowerCase` (ASCII). -/
def jsToLower (s : String) : String := String.mk (s.data.map Char.toLower)

/-- Model of `String.prototype.toUpperCase` (ASCII). -/
def jsToUpper (s : String) : String := String.mk (s.data.map Char.toUpper)

/-- Code-point order on character lists: the model of `localeCompare`
reporting not-greater. -/
def charListLe : List Char → List Char → Bool
  | [], _ => true
  | _ :: _, [] => false
  | a :: as, b :: bs =>
    if a.toNat < b.toNat then true
    else if b.toNat < a.toNat then false
    else charListLe as bs

/-- Code-point order on strings. -/
def jsStrLe (a b : String) : Bool := charListLe a.data b.data

/-- Stable insertion of an element into a sorted list: before the first
element it compares less-or-equal to. -/
def jsSortInsert (le : α → α → Bool) (a : α) : List α → List α
  | [] => [a]
  | b :: bs => if le a b then a :: b :: bs else b :: jsSortInsert le a bs

/-- Model of `Array.prototype.sort` under a comparator inducing the total
preorder `le`: the sort is stable (ECMAScript requires stability), and for a
total comparator the stable sorted permutation is unique, so the insertion
sort realizes it. -/
def jsSort (le : α → α → Bool) : List α → List α
  | [] => []
  | x :: xs => jsSortInsert le x (jsSort le xs)

/-- Property access `obj['key']`: `none` is JavaScript `undefined`. -/
def jsGet : List (String × JsonValue) → String → Option JsonValue
  | [], _ => none
  | (k, v) :: rest, key => if k = key then some v else jsGet rest key

/-- Optional-chained property access `rec?.['key']`. -/
def jsGetO (rec : Option (List (String × JsonValue))) (key : String) : Option JsonValue :=
  match rec with
  | none => none
  | some kvs => jsGet kvs key

/-- `asRecord`: an object that is not null and not an array, else null. -/
def asRecord : JsonValue → Option (List (String × JsonValue))
  | .obj kvs => some kvs
  | _ => none

/-- `Array.isArray` refinement. -/
def asArray : JsonValue → Option (List JsonValue)
  | .arr xs => some xs
  | _ => none

/-- `valueToInlineString`: strings verbatim, numbers and booleans via
`String(value)`, everything else the empty string. -/
def valueToInlineString : JsonValue → String
  | .str s => s
  | .num n => intToDecimal n
  | .bool true => "true"
  | .bool false => "false"
  | _ => ""

/-- `valueToInlineString` on a possibly-undefined value. -/
def valueToInlineStringO : Option JsonValue → String
  | none => ""
  | some v => valueToInlineString v

/-- `firstInline`: the first candidate whose inline coercion is non-empty. -/
def firstInline : List (Option JsonValue) → String
  | [] => ""
  | v :: rest =>
    if valueToInlineStringO v = "" then firstInline rest else valueToInlineStringO v

/-- `firstDefined`: the first candidate that is neither undefined nor null. -/
def firstDefined : List (Option JsonValue) → Option JsonValue
  | [] => none
  | none :: rest => firstDefined rest
  | some .null :: rest => firstDefined rest
  | some x :: _ => some x

/-- `x || 'default'` for the empty-string falsy case. -/
def orDefault (s dflt : String) : String := if s = "" then dflt else s

/-- `xs.join(', ')`. -/
def joinComma (xs : List String) : String := String.intercalate ", " xs

/-! ### Date model (modelled from the spec)

Modelled from the spec: the platform `Date` constructor and
`Date.prototype.toISOString` used by `normalizeTimestamp` are not part of
the repository; they are modelled from the ECMAScript specification: a time
value is valid when its magnitude is at most 8.64e15 milliseconds, and
`toISOString` renders the proleptic-Gregorian UTC date as
`YYYY-MM-DDTHH:mm:ss.sssZ` (expanded-year form beyond four digits). -/

/-- Decimal rendering left-padded with zeros to a given width. -/
def padZeros (width n : Nat) : String :=
  let ds := natDigits n
  String.mk (List.replicate (width - ds.length) '0' ++ ds)

/-- Civil date (year, month, day) from days since the Unix epoch
(Howard Hinnant's algorithm over the proleptic Gregorian calendar). -/
def civilFromDays (z0 : Int) : Int × Nat × Nat :=
  let z := z0 + 719468
  let era := z.fdiv 146097
  let doe := (z - era * 146097).toNat
  let yoe := (doe - doe / 1460 + doe / 36524 - doe / 146096) / 365
  let doy := doe - (365 * yoe + yoe / 4 - yoe / 100)
  let mp := (5 * doy + 2) / 153
  let d := doy - (153 * mp + 2) / 5 + 1
  let m := if mp < 10 then mp + 3 else mp - 9
  ((yoe : Int) + era * 400 + (if m ≤ 2 then 1 else 0), m, d)

/-- Whether an epoch-milliseconds value is a valid ECMAScript time value. -/
def isValidDateMs (ms : Int) : Bool := decide (ms.natAbs ≤ 8640000000000000)

/-- The ISO-8601 year field, four digits padded, expanded with an explicit
sign outside `0000`-`9999`. -/
def isoYearText (y : Int) : String :=
  if y < 0 then "-" ++ padZeros 6 y.natAbs
  else if y > 9999 then "+" ++ padZeros 6 y.toNat
  else padZeros 4 y.toNat

/-- `Date.prototype.toISOString` of an epoch-milliseconds value. -/
def isoOfEpochMs (ms : Int) : String :=
  let days := ms.fdiv 86400000
  let msOfDay := (ms - days * 86400000).toNat
  let ymd := civilFromDays days
  let h := msOfDay / 3600000
  let mi := msOfDay % 3600000 / 60000
  let sec := msOfDay % 60000 / 1000
  let msec := msOfDay % 1000
  isoYearText ymd.1 ++ "-" ++ padZeros 2 ymd.2.1 ++ "-" ++ padZeros 2 ymd.2.2 ++ "T" ++
    padZeros 2 h ++ ":" ++ padZeros 2 mi ++ ":" ++ padZeros 2 sec ++ "." ++
    padZeros 3 msec ++ "Z"

/-- `normalizeTimestamp`: a value with a non-empty inline string form is used
verbatim; otherwise a finite number would be interpreted as an epoch (seconds
up to the 99,999,999,999 threshold, else milliseconds) and rendered in ISO
form; otherwise `"-"`.  In this model `Math.trunc` is the identity and
`Number.isFinite` is constantly true (see the module comment). -/
def normalizeTimestamp (value : Option JsonValue) : String :=
  let asText := valueToInlineStringO value
  if asText ≠ "" then asText
  else
    match value with
    | some (.num n) =>
      let raw := n
      let milliseconds := if raw > 99999999999 then raw else raw * 1000
      if isValidDateMs milliseconds then isoOfEpochMs milliseconds
      else intToDecimal n
    | _ => "-"

/-- `toJsonString`: `JSON.stringify(value, null, indentation)`.  On
`JsonValue` inputs serialization never throws and never returns undefined,
so the defensive fallback of the source is unreachable; the component only
calls with indentation 0 (compact) and 2 (pretty). -/
def toJsonString (value : JsonValue) (indentation : Nat) : String :=
  if indentation = 0 then compactPrint value else prettyPrint 0 value

/-- Character class of the custom-level-token pattern `[A-Z0-9_-]`. -/
def isLevelTokenChar (c : Char) : Bool :=
  ('A' ≤ c && c ≤ 'Z') || ('0' ≤ c && c ≤ '9') || c = '_' || c = '-'

/-- Test of the anchored pattern `/^[A-Z0-9_-]{2,20}$/`. -/
def levelTokenMatch (s : String) : Bool :=
  decide (2 ≤ s.data.length) && decide (s.data.length ≤ 20) && s.data.all isLevelTokenChar

/-- `normalizeLevel`: the case-insensitive level-normalization rules. -/
def normalizeLevel (value : String) : String :=
  let upper := jsToUpper value
  if jsIncludes upper "CRITICAL" || jsIncludes upper "FATAL" then "CRITICAL"
  else if jsIncludes upper "ERROR" || upper == "ERR" then "ERROR"
  else if jsIncludes upper "WARN" then "WARNING"
  else if jsIncludes upper "DEBUG" then "DEBUG"
  else if jsIncludes upper "TRACE" then "TRACE"
  else if jsIncludes upper "INFO" || upper == "LOG" then "INFO"
  else if levelTokenMatch upper then upper
  else ""

/-- The candidate scan of `inferLevel`: skip candidates with empty inline
text or rejected normalization; default `UNKNOWN`. -/
def inferLevelLoop : List (Option JsonValue) → String
  | [] => "UNKNOWN"
  | c :: rest =>
    let text := valueToInlineStringO c
    if text = "" then inferLevelLoop rest
    else if normalizeLevel text = "" then inferLevelLoop rest
    else normalizeLevel text

/-- `inferLevel` over the ordered candidate list. -/
def inferLevel (event : List (String × JsonValue))
    (data metaData : Option (List (String × JsonValue))) : String :=
  inferLevelLoop
    [jsGetO metaData "level",
     jsGet event "level",
     jsGet event "severity",
     jsGetO data "level",
     jsGetO data "severity",
     jsGetO data "notificationType",
     jsGet event "channel"]

/-- `getLevelTone`: presentation tone from the final level string. -/
def getLevelTone (level : String) : String :=
  let upper := jsToUpper level
  if jsIncludes upper "ERROR" || jsIncludes upper "CRITICAL" || jsIncludes upper "FATAL" then
    "error"
  else if jsIncludes upper "WARN" then "warning"
  else if jsIncludes upper "DEBUG" then "debug"
  else if jsIncludes upper "TRACE" then "trace"
  else if jsIncludes upper "INFO" || jsIncludes upper "LOG" then "info"
  else "neutral"

/-- `extractMessage`: ordered candidates, then a data-keys synthesis, then
the fixed fallback text. -/
def extractMessage (event : List (String × JsonValue))
    (data : Option (List (String × JsonValue))) : String :=
  let fromCandidates := firstInline
    [jsGetO data "message",
     jsGet event "message",
     jsGetO data "detail",
     jsGetO data "reason",
     jsGetO data "type",
     jsGetO data "eventName",
     jsGetO data "event",
     jsGet event "topic",
     jsGet event "type",
     jsGetO data "code",
     jsGet event "code"]
  if fromCandidates ≠ "" then fromCandidates
  else
    match data with
    | some kvs =>
      if 0 < kvs.length then "Data keys: " ++ joinComma ((kvs.map (fun kv => kv.1)).take 6)
      else "No short message available"
    | none => "No short message available"

/-- Single event-like key present in a sampled entry. -/
def hasEventKey (entry : List (String × JsonValue)) : Bool :=
  (jsGet entry "timestamp").isSome || (jsGet entry "topic").isSome ||
    (jsGet entry "message").isSome || (jsGet entry "event").isSome ||
    (jsGet entry "data").isSome

/-- `looksLikeEventArray`: at least one of the first 20 sampled elements is
an object carrying an event-like key. -/
def looksLikeEventArray (values : List JsonValue) : Bool :=
  let hits := (values.take 20).countP (fun v =>
    match asRecord v with
    | some entry => hasEventKey entry
    | none => false)
  decide (1 ≤ hits)

/-- First array among the direct candidates. -/
def firstArray : List (Option JsonValue) → Option (List JsonValue)
  | [] => none
  | some (.arr xs) :: _ => some xs
  | _ :: rest => firstArray rest

/-- Fallback scan over the root object's own values. -/
def findEventLikeArray : List JsonValue → List JsonValue
  | [] => []
  | v :: rest =>
    match asArray v with
    | some xs => if looksLikeEventArray xs then xs else findEventLikeArray rest
    | none => findEventLikeArray rest

/-- `extractEvents`: the event-collection resolution cascade. -/
def extractEvents (parsed : JsonValue)
    (rootRecord : Option (List (String × JsonValue))) : List JsonValue :=
  match asArray parsed with
  | some xs => xs
  | none =>
    let dataRecord := (jsGetO rootRecord "data").bind asRecord
    let payloadRecord := (jsGetO rootRecord "payload").bind asRecord
    let directCandidates : List (Option JsonValue) :=
      [jsGetO rootRecord "events",
       jsGetO rootRecord "logs",
       jsGetO rootRecord "records",
       jsGetO rootRecord "entries",
       jsGetO rootRecord "items",
       jsGetO dataRecord "events",
       jsGetO dataRecord "logs",
       jsGetO payloadRecord "events",
       jsGetO payloadRecord "logs"]
    match firstArray directCandidates with
    | some xs => xs
    | none =>
      match rootRecord with
      | some kvs => findEventLikeArray (kvs.map (fun kv => kv.2))
      | none => []

/-- `extractMetaRecord`: first object among `meta`, `metadata`, `header`. -/
def extractMetaRecord (rootRecord : Option (List (String × JsonValue))) :
    Option (List (String × JsonValue)) :=
  ((jsGetO rootRecord "meta").bind asRecord).orElse (fun _ =>
    ((jsGetO rootRecord "metadata").bind asRecord).orElse (fun _ =>
      (jsGetO rootRecord "header").bind asRecord))

/-- One row of the canonical event model (`EventView`). -/
structure EventView where
  uid : String
  id : String
  timestamp : String
  level : String
  levelTone : String
  application : String
  context : String
  message : String
  rawJson : String
  lineTitle : String
  searchable : String
deriving DecidableEq

/-- `toEventView`: normalization of one raw event at its position. -/
def toEventView (eventValue : JsonValue) (index : Nat) : EventView :=
  let event := (asRecord eventValue).getD []
  let data := (jsGet event "data").bind asRecord
  let metaData := (jsGet event "metaData").bind asRecord
  let id := orDefault
    (firstInline [jsGet event "id", jsGet event "eventId", jsGet event "uuid",
      jsGetO data "id"])
    (natToDecimal (index + 1))
  let timestamp := normalizeTimestamp (firstDefined
    [jsGet event "timestamp",
     jsGet event "time",
     jsGet event "created",
     jsGet event "dateTime",
     jsGetO data "timestamp",
     jsGetO data "time"])
  let level := inferLevel event data metaData
  let application := orDefault
    (firstInline [jsGet event "applicationName", jsGet event "application",
      jsGet event "channel", jsGet event "source", jsGetO data "source",
      jsGetO data "application", jsGetO data "provider"])
    "unknown"
  let context := orDefault
    (firstInline [jsGet event "context", jsGet event "topic", jsGet event "eventType",
      jsGetO data "type", jsGetO data "eventName", jsGetO data "topic",
      jsGetO data "event"])
    "none"
  let message := extractMessage event data
  let compactRaw := toJsonString (JsonValue.obj event) 0
  let rawJson := toJsonString (JsonValue.obj event) 2
  let searchableRaw :=
    if 1800 < compactRaw.data.length then String.mk (compactRaw.data.take 1800)
    else compactRaw
  let lineTitle := timestamp ++ " | " ++ level ++ " | " ++ application ++ " | " ++
    context ++ " | " ++ message
  { uid := natToDecimal index ++ "-" ++ id
    id := id
    timestamp := timestamp
    level := level
    levelTone := getLevelTone level
    application := application
    context := context
    message := message
    rawJson := rawJson
    lineTitle := lineTitle
    searchable := jsTrim (jsToLower (id ++ " " ++ lineTitle ++ " " ++ searchableRaw)) }

/-- `uniqueOptions`: distinct values in first-occurrence order, then sorted
(the `localeCompare` comparator is modelled as code-point order). -/
def uniqueOptions (values : List String) : List String :=
  jsSort jsStrLe values.eraseDups

/-- `toggleSelection` of one filter option. -/
def toggleSelection (values : List String) (option : String) (checked : Bool) :
    List String :=
  let hasOption := values.contains option
  if checked && !hasOption then values ++ [option]
  else if !checked && hasOption then values.filter (fun value => value != option)
  else values

/-- Generic metadata entry. -/
structure MetaEntry where
  key : String
  value : String
  rawValue : JsonValue
  rawJsonCache : Option String

/-- One labelled fact of a pretty block. -/
structure PrettyFact where
  label : String
  value : String

/-- Structured summary of a recognized metadata substructure. -/
structure PrettyMetadataBlock where
  key : String
  title : String
  subtitle : String
  facts : List PrettyFact
  highlights : List String
  rawValue : JsonValue
  rawJsonCache : Option String

/-- `summarizeMetaValue`: inline values truncated at 180, arrays and objects
summarized, anything else as compact JSON. -/
def summarizeMetaValue (value : JsonValue) : String :=
  let inlineValue := valueToInlineString value
  if inlineValue ≠ "" then
    if 180 < inlineValue.data.length then String.mk (inlineValue.data.take 177) ++ "..."
    else inlineValue
  else
    match value with
    | .arr xs => "Array(" ++ natToDecimal xs.length ++ ")"
    | v =>
      match asRecord v with
      | some kvs =>
        "Object(" ++ natToDecimal kvs.length ++ " keys): " ++
          joinComma ((kvs.map (fun kv => kv.1)).take 5) ++
          (if 5 < kvs.length then ", ..." else "")
      | none => toJsonString v 0

/-- `extractMetaEntries`: every metadata key outside the fixed pretty-key
set becomes a generic entry, sorted by key (`localeCompare` modelled as
code-point order). -/
def extractMetaEntries (metaValue : Option (List (String × JsonValue))) :
    List MetaEntry :=
  match metaValue with
  | none => []
  | some kvs =>
    let prettyMetaKeys := ["browser", "agent", "settings", "templates", "widgets"]
    (jsSort (fun a b => jsStrLe a.1 b.1)
        (kvs.filter (fun kv => !(prettyMetaKeys.contains kv.1)))).map
      (fun kv =>
        { key := kv.1, value := summarizeMetaValue kv.2, rawValue := kv.2,
          rawJsonCache := none })

/-- `toRecordArray`: the records among an array value, else empty. -/
def toRecordArray (value : Option JsonValue) : List (List (String × JsonValue)) :=
  match value with
  | some (.arr xs) => xs.filterMap asRecord
  | _ => []

/-- `compactHighlights`: trim, drop blanks, truncate at 140. -/
def compactHighlights (values : List String) : List String :=
  ((values.map jsTrim).filter (fun value => value ≠ "")).map
    (fun trimmed =>
      if 140 < trimmed.data.length then String.mk (trimmed.data.take 137) ++ "..."
      else trimmed)

/-- Camel-case split of `prettyLabel`: a space between a lowercase letter or
digit and an uppercase letter. -/
def camelSplit : List Char → List Char
  | [] => []
  | [c] => [c]
  | a :: b :: rest =>
    if (('a' ≤ a && a ≤ 'z') || ('0' ≤ a && a ≤ '9')) && ('A' ≤ b && b ≤ 'Z') then
      a :: ' ' :: camelSplit (b :: rest)
    else a :: camelSplit (b :: rest)

/-- Replace each run of `_` or `-` by one space. -/
def collapseDashes : Bool → List Char → List Char
  | _, [] => []
  | prevDash, c :: rest =>
    if c = '_' || c = '-' then
      if prevDash then collapseDashes true rest else ' ' :: collapseDashes true rest
    else c :: collapseDashes false rest

/-- Word character of the `\b\w` pattern. -/
def isWordChar (c : Char) : Bool :=
  ('a' ≤ c && c ≤ 'z') || ('A' ≤ c && c ≤ 'Z') || ('0' ≤ c && c ≤ '9') || c = '_'

/-- Uppercase every word character at a word boundary. -/
def upperAtBoundaries : Option Char → List Char → List Char
  | _, [] => []
  | prev, c :: rest =>
    (if (match prev with | none => true | some p => !isWordChar p) && isWordChar c then
      c.toUpper
    else c) :: upperAtBoundaries (some c) rest

/-- `prettyLabel`: camel-case split, dash runs to spaces, word-initial
capitals. -/
def prettyLabel (key : String) : String :=
  String.mk (upperAtBoundaries none (collapseDashes false (camelSplit key.data)))

/-- `prettyValue` for settings facts. -/
def prettyValue (value : JsonValue) : String :=
  let inlineValue := valueToInlineString value
  if inlineValue ≠ "" then inlineValue
  else
    match value with
    | .arr xs =>
      let items := ((xs.map valueToInlineString).filter (fun item => item ≠ "")).take 5
      if items.length = 0 then "Array(" ++ natToDecimal xs.length ++ ")"
      else joinComma items ++ (if items.length < xs.length then ", ..." else "")
    | v =>
      match asRecord v with
      | some kvs => "Object(" ++ natToDecimal kvs.length ++ ")"
      | none => "n/a"

/-- `prettyValue` on a possibly-undefined property. -/
def prettyValueO : Option JsonValue → String
  | none => "n/a"
  | some v => prettyValue v

/-- Strict-equality test `value === true`. -/
def isTrueValue : Option JsonValue → Bool
  | some (.bool true) => true
  | _ => false

/-- The `tabs` record of one role layout. -/
def roleTabs (roleLayoutValue : JsonValue) : Option (List (String × JsonValue)) :=
  (jsGetO (asRecord roleLayoutValue) "tabs").bind asRecord

/-- Widget-reference count of one tab. -/
def tabWidgetCount (tabValue : JsonValue) : Nat :=
  match jsGetO (asRecord tabValue) "widgets" with
  | some (.arr ws) => ws.length
  | _ => 0

/-- `countTemplateTabs`. -/
def countTemplateTabs (template : List (String × JsonValue)) : Nat :=
  match (jsGet template "layout").bind asRecord with
  | none => 0
  | some layout =>
    ((layout.map (fun kv => kv.2)).map (fun rlv =>
      match roleTabs rlv with
      | some tabs => tabs.length
      | none => 0)).sum

/-- `countTemplateWidgetRefs`. -/
def countTemplateWidgetRefs (template : List (String × JsonValue)) : Nat :=
  match (jsGet template "layout").bind asRecord with
  | none => 0
  | some layout =>
    ((layout.map (fun kv => kv.2)).map (fun rlv =>
      match roleTabs rlv with
      | some tabs => ((tabs.map (fun kv => kv.2)).map tabWidgetCount).sum
      | none => 0)).sum

/-- `extractTemplateWidgetNames`: widget names referenced in template
layouts, in walk order. -/
def extractTemplateWidgetNames (templates : List (List (String × JsonValue))) :
    List String :=
  templates.flatMap (fun template =>
    match (jsGet template "layout").bind asRecord with
    | none => []
    | some layout =>
      (layout.map (fun kv => kv.2)).flatMap (fun rlv =>
        match roleTabs rlv with
        | none => []
        | some tabs =>
          (tabs.map (fun kv => kv.2)).flatMap (fun tabValue =>
            match jsGetO (asRecord tabValue) "widgets" with
            | some (.arr ws) => (ws.map valueToInlineString).filter (fun t => t ≠ "")
            | _ => [])))

/-- `parseWidgetCatalog`: the defensively parsed `_cc.widgets` JSON string
(the platform `JSON.parse` is the modelled `jsonParse`; a parse failure or a
non-array yields the empty catalog). -/
def parseWidgetCatalog (rawWidgets : String) : List (List (String × JsonValue)) :=
  if rawWidgets = "" then []
  else
    match jsonParse rawWidgets with
    | some (.arr parsed) =>
      parsed.filterMap (fun entry =>
        match asRecord entry with
        | none => none
        | some widget =>
          let metadata := (jsGet widget "metadata").bind asRecord
          let configuration := (jsGet widget "configuration").bind asRecord
          some [("name", JsonValue.str (firstInline
                  [jsGetO metadata "name", jsGetO configuration "name",
                    jsGet widget "name"])),
                ("metadataName", JsonValue.str (valueToInlineStringO (jsGetO metadata "name"))),
                ("description",
                  JsonValue.str (valueToInlineStringO (jsGetO metadata "description"))),
                ("library", JsonValue.str (orDefault
                  (valueToInlineStringO (jsGetO metadata "libraryName"))
                  (valueToInlineStringO (jsGetO metadata "library")))),
                ("enabled", JsonValue.bool (isTrueValue (jsGetO configuration "enabled")))])
    | _ => []

/-- `buildBrowserBlock`. -/
def buildBrowserBlock (browser : List (String × JsonValue)) : PrettyMetadataBlock :=
  let os := (jsGet browser "os").bind asRecord
  let browserName := orDefault (firstInline [jsGet browser "name", jsGet browser "description"])
    "Unknown"
  let browserVersion := orDefault (valueToInlineStringO (jsGet browser "version")) "n/a"
  { key := "browser"
    title := "Browser"
    subtitle := jsTrim (browserName ++ " " ++ browserVersion)
    facts := [
      { label := "Name", value := orDefault (valueToInlineStringO (jsGet browser "name"))
          "unknown" },
      { label := "Version", value := browserVersion },
      { label := "Layout Engine",
        value := orDefault (valueToInlineStringO (jsGet browser "layout")) "n/a" },
      { label := "OS",
        value := orDefault (firstInline
          [jsGetO os "family", jsGetO os "name", jsGet browser "platform"]) "unknown" },
      { label := "OS Version",
        value := orDefault (valueToInlineStringO (jsGetO os "version")) "n/a" },
      { label := "Architecture",
        value := orDefault (valueToInlineStringO (jsGetO os "architecture")) "n/a" }]
    highlights := compactHighlights
      [valueToInlineStringO (jsGet browser "description"),
       valueToInlineStringO (jsGet browser "ua")]
    rawValue := JsonValue.obj browser
    rawJsonCache := none }

/-- `buildAgentBlock`. -/
def buildAgentBlock (agent : List (String × JsonValue)) : PrettyMetadataBlock :=
  let reasonCodes := toRecordArray (jsGet agent "reasonCodes")
  let reasonNames := (reasonCodes.map (fun reason =>
    firstInline [jsGet reason "friendlyName", jsGet reason "code"])).filter
    (fun value => value ≠ "")
  let name := orDefault (firstInline
    [jsGet agent "displayName",
     some (JsonValue.str (jsTrim (valueToInlineStringO (jsGet agent "firstName") ++ " " ++
       valueToInlineStringO (jsGet agent "lastName"))))]) "Unknown Agent"
  { key := "agent"
    title := "Agent"
    subtitle := name
    facts := [
      { label := "Handle", value := orDefault (valueToInlineStringO (jsGet agent "handle"))
          "n/a" },
      { label := "Role", value := orDefault (valueToInlineStringO (jsGet agent "role"))
          "n/a" },
      { label := "State", value := orDefault (valueToInlineStringO (jsGet agent "state"))
          "n/a" },
      { label := "Channel", value := orDefault (valueToInlineStringO (jsGet agent "channel"))
          "n/a" },
      { label := "Station",
        value := orDefault (valueToInlineStringO (jsGet agent "stationId")) "n/a" },
      { label := "Agent ID",
        value := orDefault (valueToInlineStringO (jsGet agent "agentId")) "n/a" },
      { label := "Provider",
        value := orDefault (valueToInlineStringO (jsGet agent "providerId")) "n/a" },
      { label := "Reason Codes", value := natToDecimal reasonCodes.length }]
    highlights := compactHighlights (reasonNames.take 10)
    rawValue := JsonValue.obj agent
    rawJsonCache := none }

/-- `buildSettingsBlock`. -/
def buildSettingsBlock (settings : List (String × JsonValue)) : PrettyMetadataBlock :=
  let selectedKeys := [
    "environmentType", "websocketsEnabled", "hotdesk", "isWebRTC",
    "displayCanvasOnAlerting", "workspacesLogsDownloadEnabled",
    "workspacesLogsDataPrivacyEnabled", "forceRefreshRate", "maxDeferTime",
    "customerManagementFQDN", "pomWidgetLocation"]
  let facts := (selectedKeys.map (fun key =>
    ({ label := prettyLabel key, value := prettyValueO (jsGet settings key) } :
      PrettyFact))).filter (fun fact => fact.value ≠ "n/a")
  let deferIntervals := prettyValueO (jsGet settings "deferTimeIntervals")
  { key := "settings"
    title := "Settings"
    subtitle := natToDecimal settings.length ++ " settings entries"
    facts := facts
    highlights := compactHighlights ["Defer intervals: " ++ deferIntervals]
    rawValue := JsonValue.obj settings
    rawJsonCache := none }

/-- `buildTemplatesBlock`. -/
def buildTemplatesBlock (templates : List (List (String × JsonValue))) :
    PrettyMetadataBlock :=
  let templateNames := (templates.map (fun template =>
    firstInline [jsGet template "name", jsGet template "id"])).filter
    (fun value => value ≠ "")
  let coreCount := (templates.filter (fun t => isTrueValue (jsGet t "core"))).length
  let compressedCount := (templates.filter (fun t =>
    isTrueValue (jsGet t "useCompressedWorkspaces"))).length
  let totalTabs := (templates.map countTemplateTabs).sum
  let totalWidgetRefs := (templates.map countTemplateWidgetRefs).sum
  { key := "templates"
    title := "Templates"
    subtitle := natToDecimal templates.length ++ " templates"
    facts := [
      { label := "Core Templates", value := natToDecimal coreCount },
      { label := "Compressed Layouts", value := natToDecimal compressedCount },
      { label := "Total Tabs", value := natToDecimal totalTabs },
      { label := "Widget References", value := natToDecimal totalWidgetRefs }]
    highlights := compactHighlights (templateNames.take 10)
    rawValue := JsonValue.arr (templates.map JsonValue.obj)
    rawJsonCache := none }

/-- `buildWidgetsBlock`: emitted only when the union of catalog and
referenced names is non-empty. -/
def buildWidgetsBlock (meta : List (String × JsonValue))
    (templates : List (List (String × JsonValue))) : Option PrettyMetadataBlock :=
  let localStorage := (jsGet meta "localStorage").bind asRecord
  let widgetsRaw := valueToInlineStringO (jsGetO localStorage "_cc.widgets")
  let widgetCatalog := parseWidgetCatalog widgetsRaw
  let templateWidgetNames := extractTemplateWidgetNames templates
  let catalogWidgetNames := (widgetCatalog.map (fun widget =>
    firstInline [jsGet widget "name", jsGet widget "metadataName"])).filter
    (fun value => value ≠ "")
  let uniqueNames := (catalogWidgetNames ++ templateWidgetNames).eraseDups
  if widgetCatalog.length = 0 ∧ uniqueNames.length = 0 then none
  else some
    { key := "widgets"
      title := "Widgets"
      subtitle := natToDecimal uniqueNames.length ++ " unique widget names"
      facts := [
        { label := "Widget Catalog", value := natToDecimal widgetCatalog.length },
        { label := "Template Widget Refs", value := natToDecimal templateWidgetNames.length },
        { label := "Unique Names", value := natToDecimal uniqueNames.length }]
      highlights := compactHighlights (uniqueNames.take 12)
      rawValue := JsonValue.obj
        [("widgetCatalog", JsonValue.arr (widgetCatalog.map JsonValue.obj)),
         ("templateWidgetNames", JsonValue.arr (templateWidgetNames.map JsonValue.str))]
      rawJsonCache := none }

/-- `buildPrettyMetaBlocks`: the five recognized blocks, each independent
and optional, in source order. -/
def buildPrettyMetaBlocks (meta : Option (List (String × JsonValue))) :
    List PrettyMetadataBlock :=
  match meta with
  | none => []
  | some meta =>
    let templates := toRecordArray (jsGet meta "templates")
    (match (jsGet meta "browser").bind asRecord with
      | some browser => [buildBrowserBlock browser]
      | none => []) ++
    (match (jsGet meta "agent").bind asRecord with
      | some agent => [buildAgentBlock agent]
      | none => []) ++
    (match (jsGet meta "settings").bind asRecord with
      | some settings => [buildSettingsBlock settings]
      | none => []) ++
    (if 0 < templates.length then [buildTemplatesBlock templates] else []) ++
    (match buildWidgetsBlock meta templates with
      | some widgetBlock => [widgetBlock]
      | none => [])

/-- One step of `inferApplicationFromEvents`. -/
def inferAppLoop : List JsonValue → String
  | [] => ""
  | e :: rest =>
    let event := asRecord e
    let data := (jsGetO event "data").bind asRecord
    let application := firstInline
      [jsGetO event "applicationName", jsGetO event "application",
       jsGetO event "channel", jsGetO event "source", jsGetO data "source"]
    if application = "" then inferAppLoop rest else application

/-- `inferApplicationFromEvents`: first resolvable application name among
the first 100 raw events. -/
def inferApplicationFromEvents (events : List JsonValue) : String :=
  inferAppLoop (events.take 100)

/-- The mutable fields of the component: the view-model. -/
structure ViewerState where
  fileName : String
  parseError : String
  applicationName : String
  totalEvents : Nat
  metaEntries : List MetaEntry
  prettyMetaBlocks : List PrettyMetadataBlock
  searchText : String
  selectedLevels : List String
  selectedApplications : List String
  selectedContexts : List String
  levelOptions : List String
  applicationOptions : List String
  contextOptions : List String
  isLoaded : Bool
  expandedEventUid : Option String
  expandedMetaKey : Option String
  filteredEvents : List EventView
  eventViews : List EventView

/-- The field initializers of the component class. -/
def initialViewerState : ViewerState :=
  { fileName := ""
    parseError := ""
    applicationName := "-"
    totalEvents := 0
    metaEntries := []
    prettyMetaBlocks := []
    searchText := ""
    selectedLevels := []
    selectedApplications := []
    selectedContexts := []
    levelOptions := []
    applicationOptions := []
    contextOptions := []
    isLoaded := false
    expandedEventUid := none
    expandedMetaKey := none
    filteredEvents := []
    eventViews := [] }

/-- The inclusion predicate evaluated by `applyFilters` for one event, given
the processed search term and the three selection lists. -/
def eventMatches (searchTerm : String) (selectedLevels selectedApplications
    selectedContexts : List String) (event : EventView) : Bool :=
  let matchesSearch := searchTerm == "" || jsIncludes event.searchable searchTerm
  let matchesLevel := selectedLevels.length == 0 || selectedLevels.contains event.level
  let matchesApplication := selectedApplications.length == 0 ||
    selectedApplications.contains event.application
  let matchesContext := selectedContexts.length == 0 ||
    selectedContexts.contains event.context
  matchesSearch && matchesLevel && matchesApplication && matchesContext

/-- `applyFilters`: total synchronous recomputation of the filtered list,
then the expansion-state guard. -/
def applyFilters (s : ViewerState) : ViewerState :=
  let searchTerm := jsToLower (jsTrim s.searchText)
  let filtered := s.eventViews.filter
    (eventMatches searchTerm s.selectedLevels s.selectedApplications s.selectedContexts)
  let expanded :=
    if filtered.any (fun event => some event.uid == s.expandedEventUid) then
      s.expandedEventUid
    else none
  { s with filteredEvents := filtered, expandedEventUid := expanded }

/-- `clearFilters`: reset all four state components, recompute once. -/
def clearFilters (s : ViewerState) : ViewerState :=
  applyFilters { s with
    searchText := ""
    selectedLevels := []
    selectedApplications := []
    selectedContexts := [] }

/-- `onFilterChange`. -/
def onFilterChange (s : ViewerState) : ViewerState := applyFilters s

/-- `toggleEventJson`. -/
def toggleEventJson (s : ViewerState) (eventUid : String) : ViewerState :=
  { s with expandedEventUid :=
    if s.expandedEventUid == some eventUid then none else some eventUid }

/-- The three filter dimensions of `toggleFilterOption`. -/
inductive FilterType where
  | level
  | application
  | context

/-- `toggleFilterOption`: update one selection list, recompute. -/
def toggleFilterOption (s : ViewerState) (filterType : FilterType) (option : String)
    (checked : Bool) : ViewerState :=
  let s2 :=
    match filterType with
    | .level => { s with selectedLevels := toggleSelection s.selectedLevels option checked }
    | .application =>
      { s with selectedApplications := toggleSelection s.selectedApplications option checked }
    | .context =>
      { s with selectedContexts := toggleSelection s.selectedContexts option checked }
  applyFilters s2

/-- `resetViewerState`: every derived field back to its empty default
(`parseError` is deliberately not touched, as in the source). -/
def resetViewerState (s : ViewerState) : ViewerState :=
  { s with
    fileName := ""
    applicationName := "-"
    totalEvents := 0
    prettyMetaBlocks := []
    metaEntries := []
    searchText := ""
    selectedLevels := []
    selectedApplications := []
    selectedContexts := []
    levelOptions := []
    applicationOptions := []
    contextOptions := []
    eventViews := []
    filteredEvents := []
    expandedEventUid := none
    expandedMetaKey := none
    isLoaded := false }

/-- `processJson`: reset, rebuild the whole view-model from the parsed
document, recompute the filtered list. -/
def processJson (parsed : JsonValue) (fileName : String) (s0 : ViewerState) :
    ViewerState :=
  let s := resetViewerState s0
  let rootRecord := asRecord parsed
  let events := extractEvents parsed rootRecord
  let meta := extractMetaRecord rootRecord
  let applicationName := orDefault (orDefault
    (firstInline
      [jsGetO rootRecord "application", jsGetO rootRecord "applicationName",
       jsGetO meta "application", jsGetO meta "environmentType"])
    (inferApplicationFromEvents events)) "unknown"
  let eventViews := events.mapIdx (fun index event => toEventView event index)
  applyFilters { s with
    fileName := fileName
    applicationName := applicationName
    prettyMetaBlocks := buildPrettyMetaBlocks meta
    metaEntries := extractMetaEntries meta
    eventViews := eventViews
    totalEvents := eventViews.length
    levelOptions := uniqueOptions (eventViews.map (fun e => e.level))
    applicationOptions := uniqueOptions (eventViews.map (fun e => e.application))
    contextOptions := uniqueOptions (eventViews.map (fun e => e.context))
    isLoaded := true }

/-- `handleParseError`: full reset, then the user-facing message.  The
thrown value is modelled as `some message` for an `Error` and `none`
otherwise. -/
def handleParseError (error : Option String) (s : ViewerState) : ViewerState :=
  let s2 := resetViewerState s
  { s2 with parseError :=
    match error with
    | some msg => "Invalid JSON file: " ++ msg
    | none => "Invalid JSON file: unknown error" }

/-- Modelled from the spec: the platform `JSON.parse` raises a
`SyntaxError` whose message text is engine specific; the model uses a fixed
placeholder message. -/
def jsonSyntaxErrorMessage : String := "Unexpected token in JSON"

/-- The `reader.onload` handler of `loadFile`: blank input and parse
failures route to `handleParseError`, success to `processJson`.  The
platform `JSON.parse` is the modelled `jsonParse`. -/
def loadText (rawText : String) (fileName : String) (s : ViewerState) : ViewerState :=
  let s2 := { s with parseError := "" }
  if jsTrim rawText = "" then
    handleParseError (some "The selected file is empty.") s2
  else
    match jsonParse rawText with
    | some parsed => processJson parsed fileName s2
    | none => handleParseError (some jsonSyntaxErrorMessage) s2

/-! ## Spec-side definitions for the refinement claims -/

/-- The filter inclusion predicate as the spec words it: term empty or a
substring of the searchable text, and each selection list empty or holding
the event's value. -/
def includeSpec (term : String) (levels apps contexts : List String)
    (e : EventView) : Prop :=
  (term = "" ∨ term.data <:+: e.searchable.data) ∧
  (levels = [] ∨ e.level ∈ levels) ∧
  (apps = [] ∨ e.application ∈ apps) ∧
  (contexts = [] ∨ e.context ∈ contexts)

/-- The level-normalization rules as the spec words them, with rejection as
`none` instead of the empty-string sentinel of the source. -/
def normalizeLevelSpec (value : String) : Option String :=
  let upper := jsToUpper value
  if jsIncludes upper "CRITICAL" || jsIncludes upper "FATAL" then some "CRITICAL"
  else if jsIncludes upper "ERROR" || upper == "ERR" then some "ERROR"
  else if jsIncludes upper "WARN" then some "WARNING"
  else if jsIncludes upper "DEBUG" then some "DEBUG"
  else if jsIncludes upper "TRACE" then some "TRACE"
  else if jsIncludes upper "INFO" || upper == "LOG" then some "INFO"
  else if levelTokenMatch upper then some upper
  else none

/-- The level scan as the spec words it: the first candidate with non-empty
inline text whose normalization is accepted; `UNKNOWN` when none is. -/
def inferLevelSpecLoop : List (Option JsonValue) → String
  | [] => "UNKNOWN"
  | c :: rest =>
    let text := valueToInlineStringO c
    if text = "" then inferLevelSpecLoop rest
    else
      match normalizeLevelSpec text with
      | some level => level
      | none => inferLevelSpecLoop rest

/-- The event-collection resolution as the spec words it: five rules, first
match wins — root array; the five direct keys; `events` then `logs` nested
under `data` then `payload`; the event-like fallback scan; empty. -/
def extractEventsSpec (parsed : JsonValue) : List JsonValue :=
  match asArray parsed with
  | some xs => xs
  | none =>
    match asRecord parsed with
    | none => []
    | some kvs =>
      match firstArray [jsGet kvs "events", jsGet kvs "logs", jsGet kvs "records",
          jsGet kvs "entries", jsGet kvs "items"] with
      | some xs => xs
      | none =>
        let dataRecord := (jsGet kvs "data").bind asRecord
        let payloadRecord := (jsGet kvs "payload").bind asRecord
        match firstArray [jsGetO dataRecord "events", jsGetO dataRecord "logs",
            jsGetO payloadRecord "events", jsGetO payloadRecord "logs"] with
        | some xs => xs
        | none => findEventLikeArray (kvs.map (fun kv => kv.2))

/-- The expansion-state invariant: no expanded row outside the filtered
list. -/
def expandedInvariant (s : ViewerState) : Prop :=
  s.expandedEventUid = none ∨ ∃ e ∈ s.filteredEvents, some e.uid = s.expandedEventUid

theorem natToDecimalAux_fuel (n : Nat) :
    ∀ f f2 acc, n < f → n < f2 →
      natToDecimalAux f n acc = natToDecimalAux f2 n acc := by
  induction n using Nat.strong_induction_on with
  | _ n ih =>
    intro f f2 acc hf hf2
    obtain ⟨g, rfl⟩ : ∃ g, f = g + 1 := ⟨f - 1, by omega⟩
    obtain ⟨g2, rfl⟩ : ∃ g2, f2 = g2 + 1 := ⟨f2 - 1, by omega⟩
    by_cases h : n < 10
    · simp only [natToDecimalAux, if_pos h]
    · simp only [natToDecimalAux, if_neg h]
      exact ih (n / 10) (Nat.div_lt_self (by omega) (by omega)) _ _ _
        (by omega) (by omega)

theorem natToDecimalAux_eq_append (n : Nat) :
    ∀ f acc, n < f → natToDecimalAux f n acc = natToDecimalAux f n [] ++ acc := by
  induction n using Nat.strong_induction_on with
  | _ n ih =>
    intro f acc hf
    obtain ⟨g, rfl⟩ : ∃ g, f = g + 1 := ⟨f - 1, by omega⟩
    by_cases h : n < 10
    · simp only [natToDecimalAux, if_pos h]
      simp
    · simp only [natToDecimalAux, if_neg h]
      rw [ih (n / 10) (Nat.div_lt_self (by omega) (by omega)) g _ (by omega),
        ih (n / 10) (Nat.div_lt_self (by omega) (by omega)) g
          [digitChar (n % 10)] (by omega)]
      simp

theorem natDigits_eq (n : Nat) (h : ¬ n < 10) :
    natDigits n = natDigits (n / 10) ++ [digitChar (n % 10)] := by
  show natToDecimalAux (n + 1) n [] = natToDecimalAux (n / 10 + 1) (n / 10) [] ++ _
  conv_lhs => rw [natToDecimalAux]
  rw [if_neg h]
  rw [natToDecimalAux_eq_append (n / 10) n [digitChar (n % 10)] (by omega),
    natToDecimalAux_fuel (n / 10) n (n / 10 + 1) [] (by omega) (by omega)]

theorem natDigits_eq_small (n : Nat) (h : n < 10) :
    natDigits n = [digitChar n] := by
  show natToDecimalAux (n + 1) n [] = _
  simp only [natToDecimalAux, if_pos h]
  simp [Nat.mod_eq_of_lt h]

theorem digitVal_digitChar (n : Nat) (h : n < 10) :
    digitVal (digitChar n) = n := by
  interval_cases n <;> decide

theorem isDigit_digitChar (n : Nat) (h : n < 10) :
    (digitChar n).isDigit = true := by
  interval_cases n <;> decide

theorem natDigits_all_digit (n : Nat) :
    ∀ c ∈ natDigits n, c.isDigit = true := by
  induction n using Nat.strong_induction_on with
  | _ n ih =>
    by_cases h : n < 10
    · rw [natDigits_eq_small n h]
      intro c hc
      rcases List.mem_singleton.mp hc with rfl
      exact isDigit_digitChar n h
    · rw [natDigits_eq n h]
      intro c hc
      rcases List.mem_append.mp hc with hc | hc
      · exact ih (n / 10) (Nat.div_lt_self (by omega) (by omega)) c hc
      · rcases List.mem_singleton.mp hc with rfl
        exact isDigit_digitChar _ (Nat.mod_lt _ (by omega))

theorem natDigits_ne_nil (n : Nat) : natDigits n ≠ [] := by
  by_cases h : n < 10
  · rw [natDigits_eq_small n h]; simp
  · rw [natDigits_eq n h]; simp

theorem foldl_natDigits (n : Nat) :
    ∀ a, (natDigits n).foldl (fun a c => 10 * a + digitVal c) a =
      a * 10 ^ (natDigits n).length + n := by
  induction n using Nat.strong_induction_on with
  | _ n ih =>
    intro a
    by_cases h : n < 10
    · rw [natDigits_eq_small n h]
      simp [List.foldl, digitVal_digitChar n h]
      ring
    · rw [natDigits_eq n h]
      rw [List.foldl_append]
      rw [ih (n / 10) (Nat.div_lt_self (by omega) (by omega)) a]
      simp only [List.foldl, List.length_append, List.length_singleton]
      rw [digitVal_digitChar _ (Nat.mod_lt _ (by omega))]
      rw [pow_succ]
      have hdm := Nat.div_add_mod n 10
      ring_nf
      omega

theorem decValOf_natDigits (n : Nat) : decValOf (natDigits n) = n := by
  have := foldl_natDigits n 0
  simpa [decValOf] using this

theorem natToDecimal_injective : Function.Injective natToDecimal := by
  intro m n h
  have : natDigits m = natDigits n := congrArg String.data h
  have := congrArg decValOf this
  rwa [decValOf_natDigits, decValOf_natDigits] at this

theorem allWs_nil : AllWs [] := by intro c hc; cases hc

theorem allWs_indentChars (depth : Nat) : AllWs (indentChars depth) := by
  intro c hc
  rcases List.eq_of_mem_replicate hc with rfl
  decide

theorem skipWs_append_of_allWs {w : List Char} (h : AllWs w) (cs : List Char) :
    skipWs (w ++ cs) = skipWs cs := by
  induction w with
  | nil => rfl
  | cons c w ih =>
    have hc : isJsonWs c = true := h c (by simp)
    have hw : AllWs w := fun d hd => h d (by simp [hd])
    simp [skipWs, hc, ih hw]

theorem skipWs_cons_of_not_ws {c : Char} (h : isJsonWs c = false) (cs : List Char) :
    skipWs (c :: cs) = c :: cs := by
  simp [skipWs, h]

theorem skipWs_skipWs (cs : List Char) : skipWs (skipWs cs) = skipWs cs := by
  induction cs with
  | nil => rfl
  | cons c cs ih =>
    by_cases h : isJsonWs c = true
    · simp [skipWs, h, ih]
    · simp only [Bool.not_eq_true] at h
      simp [skipWs, h]

theorem psb_quote (fuel : Nat) (cs : List Char) :
    parseStringBody (fuel + 1) ('"' :: cs) = some ([], cs) := by
  rw [parseStringBody]
  simp

theorem psb_escape (fuel : Nat) {cs : List Char} {uc : Char} {cs2 : List Char}
    (h : escDecode cs = some (uc, cs2)) :
    parseStringBody (fuel + 1) ('\\' :: cs) =
      (parseStringBody fuel cs2).map (fun p => (uc :: p.1, p.2)) := by
  rw [parseStringBody]
  simp [h]

theorem psb_plain (fuel : Nat) {c : Char} (h1 : c ≠ '"') (h2 : c ≠ '\\')
    (h3 : ¬ c.toNat < 32) (cs : List Char) :
    parseStringBody (fuel + 1) (c :: cs) =
      (parseStringBody fuel cs).map (fun p => (c :: p.1, p.2)) := by
  rw [parseStringBody]
  simp [h1, h2, h3]

theorem escDecode_u {h1 h2 h3 h4 : Char} {a b c3 d4 : Nat} (hv1 : hexVal h1 = some a)
    (hv2 : hexVal h2 = some b) (hv3 : hexVal h3 = some c3) (hv4 : hexVal h4 = some d4)
    (hvalid : (((a * 16 + b) * 16 + c3) * 16 + d4).isValidChar) (cs : List Char) :
    escDecode ('u' :: h1 :: h2 :: h3 :: h4 :: cs) =
      some (Char.ofNat (((a * 16 + b) * 16 + c3) * 16 + d4), cs) := by
  simp only [escDecode]
  simp [hv1, hv2, hv3, hv4, hvalid]

theorem parseStringBody_jsonEscape (s : List Char) :
    ∀ fuel rest, s.length + 1 ≤ fuel →
      parseStringBody fuel ((s.map jsonEscapeChar).flatten ++ '"' :: rest) =
        some (s, rest) := by
  induction s with
  | nil =>
    intro fuel rest hfuel
    obtain ⟨f, rfl⟩ : ∃ f, fuel = f + 1 := ⟨fuel - 1, by omega⟩
    simpa using psb_quote f rest
  | cons c s ih =>
    intro fuel rest hfuel
    obtain ⟨f, rfl⟩ : ∃ f, fuel = f + 1 := ⟨fuel - 1, by omega⟩
    have hf : s.length + 1 ≤ f := by
      simpa [List.length_cons] using Nat.lt_of_succ_le hfuel
    simp only [List.map_cons, List.flatten_cons, List.append_assoc]
    by_cases h1 : c = '"'
    · subst h1
      rw [show jsonEscapeChar '"' = ['\\', '"'] from rfl]
      simp only [List.cons_append, List.nil_append]
      rw [psb_escape f (show escDecode ('"' :: ((s.map jsonEscapeChar).flatten ++ '"' :: rest)) =
        some ('"', (s.map jsonEscapeChar).flatten ++ '"' :: rest) from rfl), ih f rest hf]
      rfl
    · by_cases h2 : c = '\\'
      · subst h2
        rw [show jsonEscapeChar '\\' = ['\\', '\\'] from rfl]
        simp only [List.cons_append, List.nil_append]
        rw [psb_escape f
          (show escDecode ('\\' :: ((s.map jsonEscapeChar).flatten ++ '"' :: rest)) =
          some ('\\', (s.map jsonEscapeChar).flatten ++ '"' :: rest) from rfl), ih f rest hf]
        rfl
      · by_cases h3 : c = '\x08'
        · subst h3
          rw [show jsonEscapeChar '\x08' = ['\\', 'b'] from rfl]
          simp only [List.cons_append, List.nil_append]
          rw [psb_escape f
            (show escDecode ('b' :: ((s.map jsonEscapeChar).flatten ++ '"' :: rest)) =
            some ('\x08', (s.map jsonEscapeChar).flatten ++ '"' :: rest) from rfl), ih f rest hf]
          rfl
        · by_cases h4 : c = '\x09'
          · subst h4
            rw [show jsonEscapeChar '\x09' = ['\\', 't'] from rfl]
            simp only [List.cons_append, List.nil_append]
            rw [psb_escape f (show escDecode ('t' ::
              ((s.map jsonEscapeChar).flatten ++ '"' :: rest)) =
              some ('\x09', (s.map jsonEscapeChar).flatten ++ '"' :: rest) from rfl),
              ih f rest hf]
            rfl
          · by_cases h5 : c = '\x0a'
            · subst h5
              rw [show jsonEscapeChar '\x0a' = ['\\', 'n'] from rfl]
              simp only [List.cons_append, List.nil_append]
              rw [psb_escape f (show escDecode ('n' ::
                ((s.map jsonEscapeChar).flatten ++ '"' :: rest)) =
                some ('\x0a', (s.map jsonEscapeChar).flatten ++ '"' :: rest) from rfl),
                ih f rest hf]
              rfl
            · by_cases h6 : c = '\x0c'
              · subst h6
                rw [show jsonEscapeChar '\x0c' = ['\\', 'f'] from rfl]
                simp only [List.cons_append, List.nil_append]
                rw [psb_escape f (show escDecode ('f' ::
                  ((s.map jsonEscapeChar).flatten ++ '"' :: rest)) =
                  some ('\x0c', (s.map jsonEscapeChar).flatten ++ '"' :: rest) from rfl),
                  ih f rest hf]
                rfl
              · by_cases h7 : c = '\x0d'
                · subst h7
                  rw [show jsonEscapeChar '\x0d' = ['\\', 'r'] from rfl]
                  simp only [List.cons_append, List.nil_append]
                  rw [psb_escape f (show escDecode ('r' ::
                    ((s.map jsonEscapeChar).flatten ++ '"' :: rest)) =
                    some ('\x0d', (s.map jsonEscapeChar).flatten ++ '"' :: rest) from rfl),
                    ih f rest hf]
                  rfl
                · by_cases h8 : c.toNat < 32
                  · have hchar : jsonEscapeChar c =
                        ['\\', 'u', '0', '0', hexDigitChar (c.toNat / 16),
                          hexDigitChar (c.toNat % 16)] := by
                      simp [jsonEscapeChar, h1, h2, h3, h4, h5, h6, h7, h8]
                    rw [hchar]
                    have hhi : c.toNat / 16 < 2 := by omega
                    have hvhi : hexVal (hexDigitChar (c.toNat / 16)) = some (c.toNat / 16) := by
                      interval_cases h : (c.toNat / 16) <;> decide
                    have hvlo : hexVal (hexDigitChar (c.toNat % 16)) = some (c.toNat % 16) := by
                      have : c.toNat % 16 < 16 := Nat.mod_lt _ (by omega)
                      interval_cases h : (c.toNat % 16) <;> decide
                    have hval : ((0 * 16 + 0) * 16 + c.toNat / 16) * 16 + c.toNat % 16 =
                        c.toNat := by omega
                    have hvalid : ((((0 : Nat) * 16 + 0) * 16 + c.toNat / 16) * 16 +
                        c.toNat % 16).isValidChar := by
                      rw [hval]
                      exact Or.inl (by omega)
                    have hz : hexVal '0' = some 0 := rfl
                    have hdec := escDecode_u hz hz hvhi hvlo hvalid
                      ((s.map jsonEscapeChar).flatten ++ '"' :: rest)
                    simp only [List.cons_append, List.nil_append]
                    rw [psb_escape f hdec, ih f rest hf]
                    rw [show ((0 * 16 + 0) * 16 + c.toNat / 16) * 16 + c.toNat % 16 =
                      c.toNat from hval, Char.ofNat_toNat]
                    rfl
                  · have hchar : jsonEscapeChar c = [c] := by
                      simp [jsonEscapeChar, h1, h2, h3, h4, h5, h6, h7, h8]
                    rw [hchar]
                    simp only [List.cons_append, List.nil_append]
                    rw [psb_plain f h1 h2 h8, ih f rest hf]
                    rfl

theorem quoteJsonString_data (s : String) :
    (quoteJsonString s).data = '"' :: ((s.data.map jsonEscapeChar).flatten ++ ['"']) := rfl

theorem takeWhile_digits_append {ds : List Char} (h : ∀ c ∈ ds, c.isDigit = true)
    {rest : List Char} (hrest : noDigitHead rest = true) :
    (ds ++ rest).takeWhile Char.isDigit = ds ∧
      (ds ++ rest).dropWhile Char.isDigit = rest := by
  induction ds with
  | nil =>
    cases rest with
    | nil => exact ⟨rfl, rfl⟩
    | cons c cs =>
      have : c.isDigit = false := by
        simpa [noDigitHead] using hrest
      simp [List.takeWhile, List.dropWhile, this]
  | cons d ds ih =>
    have hd : d.isDigit = true := h d (by simp)
    have hds : ∀ c ∈ ds, c.isDigit = true := fun c hc => h c (by simp [hc])
    have := ih hds
    simp [List.takeWhile, List.dropWhile, hd, this.1, this.2]

theorem parseNatNum_natDigits (n : Nat) {rest : List Char} (hrest : noDigitHead rest = true) :
    parseNatNum (natDigits n ++ rest) = some (n, rest) := by
  have h := takeWhile_digits_append (natDigits_all_digit n) hrest
  have hne : (natDigits n ++ rest).takeWhile Char.isDigit ≠ [] := by
    rw [h.1]; exact natDigits_ne_nil n
  simp only [parseNatNum, h.1, h.2, List.isEmpty_iff, decValOf_natDigits]
  simp [natDigits_ne_nil n]

theorem jsize_pos (v : JsonValue) : 1 ≤ jsize v := by
  cases v <;> simp [jsize] <;> omega

theorem natDigits_head (n : Nat) :
    ∃ k tail, k < 10 ∧ natDigits n = digitChar k :: tail := by
  by_cases h : n < 10
  · exact ⟨n, [], h, natDigits_eq_small n h⟩
  · obtain ⟨k, tail, hk, htl⟩ := natDigits_head (n / 10)
    exact ⟨k, tail ++ [digitChar (n % 10)], hk, by rw [natDigits_eq n h, htl]; simp⟩
termination_by n
decreasing_by exact Nat.div_lt_self (by omega) (by omega)

theorem digitChar_not_ws {k : Nat} (hk : k < 10) : isJsonWs (digitChar k) = false := by
  interval_cases k <;> decide

theorem isDigit_false_of_ws {c : Char} (h : isJsonWs c = true) : c.isDigit = false := by
  have h2 : ((c = ' ' ∨ c = '\n') ∨ c = '\t') ∨ c = '\x0d' := by
    simpa [isJsonWs] using h
  rcases h2 with ((rfl | rfl) | rfl) | rfl <;> decide

theorem noDigitHead_of_allWs_append {tail : List Char} (htail : AllWs tail) {c : Char}
    (hc : c.isDigit = false) (rest : List Char) :
    noDigitHead (tail ++ c :: rest) = true := by
  cases tail with
  | nil => simp [noDigitHead, hc]
  | cons t ts =>
    have := isDigit_false_of_ws (htail t (by simp))
    simp [noDigitHead, this]

theorem skipWs_allWs_cons {w : List Char} (hw : AllWs w) {c : Char}
    (hc : isJsonWs c = false) (cs : List Char) :
    skipWs (w ++ c :: cs) = c :: cs := by
  rw [skipWs_append_of_allWs hw, skipWs_cons_of_not_ws hc]

theorem pv_null (f : Nat) {cs rest : List Char}
    (h : skipWs cs = 'n' :: 'u' :: 'l' :: 'l' :: rest) :
    parseValue (f + 1) cs = some (.null, rest) := by
  rw [parseValue, h]
  rfl

theorem pv_true (f : Nat) {cs rest : List Char}
    (h : skipWs cs = 't' :: 'r' :: 'u' :: 'e' :: rest) :
    parseValue (f + 1) cs = some (.bool true, rest) := by
  rw [parseValue, h]
  rfl

theorem pv_false (f : Nat) {cs rest : List Char}
    (h : skipWs cs = 'f' :: 'a' :: 'l' :: 's' :: 'e' :: rest) :
    parseValue (f + 1) cs = some (.bool false, rest) := by
  rw [parseValue, h]
  rfl

theorem pv_str (f : Nat) {cs rest : List Char} (h : skipWs cs = '"' :: rest) :
    parseValue (f + 1) cs =
      (parseStringBody f rest).map (fun p => (.str (String.mk p.1), p.2)) := by
  rw [parseValue, h]
  rfl

theorem pv_neg (f : Nat) {cs rest : List Char} (h : skipWs cs = '-' :: rest) :
    parseValue (f + 1) cs =
      (parseNatNum rest).map (fun p => (.num (-(p.1 : Int)), p.2)) := by
  rw [parseValue, h]
  rfl

theorem pv_digitChar (f : Nat) {k : Nat} (hk : k < 10) {cs rest : List Char}
    (h : skipWs cs = digitChar k :: rest) :
    parseValue (f + 1) cs =
      (parseNatNum (digitChar k :: rest)).map (fun p => (.num (p.1 : Int), p.2)) := by
  rw [parseValue, h]
  interval_cases k <;> rfl

theorem pv_arr (f : Nat) {cs rest : List Char} (h : skipWs cs = '[' :: rest) :
    parseValue (f + 1) cs = parseArrBody f rest := by
  rw [parseValue, h]
  rfl

theorem pv_obj (f : Nat) {cs rest : List Char} (h : skipWs cs = '\x7b' :: rest) :
    parseValue (f + 1) cs = parseObjBody f rest := by
  rw [parseValue, h]
  rfl

theorem pab_empty (f : Nat) {rest r : List Char} (h : skipWs rest = ']' :: r) :
    parseArrBody (f + 1) rest = some (.arr [], r) := by
  rw [parseArrBody, h]
  rfl

theorem pab_cons (f : Nat) {rest : List Char} {c : Char} {cs3 : List Char}
    (h : skipWs rest = c :: cs3) (hc : c ≠ ']') :
    parseArrBody (f + 1) rest =
      (parseElemsLoop f (c :: cs3)).map (fun p => (.arr p.1, p.2)) := by
  rw [parseArrBody, h]
  split
  · next r heq =>
    injection heq with h1 _
    exact absurd h1 hc
  · rfl

theorem pob_empty (f : Nat) {rest r : List Char} (h : skipWs rest = '\x7d' :: r) :
    parseObjBody (f + 1) rest = some (.obj [], r) := by
  rw [parseObjBody, h]
  rfl

theorem pob_cons (f : Nat) {rest : List Char} {c : Char} {cs3 : List Char}
    (h : skipWs rest = c :: cs3) (hc : c ≠ '\x7d') :
    parseObjBody (f + 1) rest =
      (parseMembersLoop f (c :: cs3)).map (fun p => (.obj p.1, p.2)) := by
  rw [parseObjBody, h]
  split
  · next r heq =>
    injection heq with h1 _
    exact absurd h1 hc
  · rfl

theorem parseValue_skipWs (fuel : Nat) (cs : List Char) :
    parseValue fuel (skipWs cs) = parseValue fuel cs := by
  cases fuel with
  | zero => simp [parseValue]
  | succ f => rw [parseValue, parseValue, skipWs_skipWs]

theorem parseElemsLoop_skipWs (fuel : Nat) (cs : List Char) :
    parseElemsLoop fuel (skipWs cs) = parseElemsLoop fuel cs := by
  cases fuel with
  | zero => simp [parseElemsLoop]
  | succ f => rw [parseElemsLoop, parseElemsLoop, parseValue_skipWs]

theorem parseMembersLoop_skipWs (fuel : Nat) (cs : List Char) :
    parseMembersLoop fuel (skipWs cs) = parseMembersLoop fuel cs := by
  cases fuel with
  | zero => simp [parseMembersLoop]
  | succ f => rw [parseMembersLoop, parseMembersLoop, skipWs_skipWs]

theorem pab_loop (f : Nat) {rest : List Char} {c : Char} {cs3 : List Char}
    (h : skipWs rest = c :: cs3) (hc : c ≠ ']') :
    parseArrBody (f + 1) rest =
      (parseElemsLoop f rest).map (fun p => (.arr p.1, p.2)) := by
  rw [pab_cons f h hc, ← h, parseElemsLoop_skipWs]

theorem pob_loop (f : Nat) {rest : List Char} {c : Char} {cs3 : List Char}
    (h : skipWs rest = c :: cs3) (hc : c ≠ '\x7d') :
    parseObjBody (f + 1) rest =
      (parseMembersLoop f rest).map (fun p => (.obj p.1, p.2)) := by
  rw [pob_cons f h hc, ← h, parseMembersLoop_skipWs]

theorem allWs_append {a b : List Char} (ha : AllWs a) (hb : AllWs b) : AllWs (a ++ b) := by
  intro c hc
  rcases List.mem_append.mp hc with h | h
  · exact ha c h
  · exact hb c h

theorem allWs_cons {c : Char} (hc : isJsonWs c = true) {w : List Char} (hw : AllWs w) :
    AllWs (c :: w) := by
  intro d hd
  rcases List.mem_cons.mp hd with rfl | h
  · exact hc
  · exact hw d h

theorem digitChar_ne_brackets {k : Nat} (hk : k < 10) :
    digitChar k ≠ ']' ∧ digitChar k ≠ '\x7d' := by
  interval_cases k <;> exact ⟨by decide, by decide⟩

/-- The first character of any pretty-printed value: never whitespace and
never a closing bracket. -/
theorem prettyPrint_head (d : Nat) (v : JsonValue) :
    ∃ c cs', (prettyPrint d v).data = c :: cs' ∧ isJsonWs c = false ∧
      c ≠ ']' ∧ c ≠ '\x7d' := by
  cases v with
  | null =>
    refine ⟨'n', _, rfl, ?_, ?_, ?_⟩ <;> decide
  | bool b =>
    cases b with
    | true => refine ⟨'t', _, rfl, ?_, ?_, ?_⟩ <;> decide
    | false => refine ⟨'f', _, rfl, ?_, ?_, ?_⟩ <;> decide
  | num n =>
    by_cases hneg : n < 0
    · refine ⟨'-', natDigits n.natAbs, ?_, by decide, by decide, by decide⟩
      simp [prettyPrint, jsonNumText, intToDecimal, hneg]
    · obtain ⟨k, tail, hk, hd⟩ := natDigits_head n.toNat
      refine ⟨digitChar k, tail, ?_, digitChar_not_ws hk,
        (digitChar_ne_brackets hk).1, (digitChar_ne_brackets hk).2⟩
      simp [prettyPrint, jsonNumText, intToDecimal, hneg, natToDecimal, hd]
  | str s =>
    refine ⟨'"', _, rfl, ?_, ?_, ?_⟩ <;> decide
  | arr elems =>
    cases elems with
    | nil => refine ⟨'[', _, rfl, ?_, ?_, ?_⟩ <;> decide
    | cons x xs => refine ⟨'[', _, rfl, ?_, ?_, ?_⟩ <;> decide
  | obj entries =>
    cases entries with
    | nil => refine ⟨'\x7b', _, rfl, ?_, ?_, ?_⟩ <;> decide
    | cons kv kvs => refine ⟨'\x7b', _, rfl, ?_, ?_, ?_⟩ <;> decide

theorem data_mk (l : List Char) : (String.mk l).data = l := rfl

theorem mk_data (s : String) : String.mk s.data = s := rfl

theorem allWs_newline : AllWs ['\n'] := by
  intro c hc
  rcases List.mem_singleton.mp hc with rfl
  decide

theorem allWs_space : AllWs [' '] := by
  intro c hc
  rcases List.mem_singleton.mp hc with rfl
  decide

theorem allWs_nl_indent (d : Nat) : AllWs ('\n' :: indentChars d) :=
  allWs_cons (by decide) (allWs_indentChars d)

/-- Round trip, main induction: the parser reads back exactly the value,
element list, or member list the pretty printer wrote, given enough fuel. -/
theorem parse_print_main (fuel : Nat) :
    (∀ (v : JsonValue) (depth : Nat) (lead rest : List Char), jsize v ≤ fuel → AllWs lead →
      noDigitHead rest = true →
      parseValue fuel (lead ++ (prettyPrint depth v).data ++ rest) = some (v, rest)) ∧
    (∀ (elems : List JsonValue) (depth : Nat) (lead tail rest : List Char), elems ≠ [] →
      jsizeElems elems ≤ fuel → AllWs lead → AllWs tail →
      parseElemsLoop fuel
        (lead ++ (prettyPrintElems depth elems).data ++ tail ++ ']' :: rest) =
        some (elems, rest)) ∧
    (∀ (kvs : List (String × JsonValue)) (depth : Nat) (lead tail rest : List Char),
      kvs ≠ [] → jsizeMembers kvs ≤ fuel → AllWs lead → AllWs tail →
      parseMembersLoop fuel
        (lead ++ (prettyPrintMembers depth kvs).data ++ tail ++ '\x7d' :: rest) =
        some (kvs, rest)) := by
  induction fuel using Nat.strong_induction_on with
  | _ fuel ih =>
    refine ⟨?_, ?_, ?_⟩
    · intro v depth lead rest hsize hlead hrest
      obtain ⟨f, rfl⟩ : ∃ f, fuel = f + 1 := ⟨fuel - 1, by have := jsize_pos v; omega⟩
      cases v with
      | null =>
        refine pv_null f ?_
        rw [show (prettyPrint depth JsonValue.null).data =
          'n' :: 'u' :: 'l' :: 'l' :: ([] : List Char) from rfl]
        simp only [List.append_assoc, List.cons_append, List.nil_append]
        refine skipWs_allWs_cons hlead ?_ _
        decide
      | bool b =>
        cases b with
        | true =>
          refine pv_true f ?_
          rw [show (prettyPrint depth (JsonValue.bool true)).data =
            't' :: 'r' :: 'u' :: 'e' :: ([] : List Char) from rfl]
          simp only [List.append_assoc, List.cons_append, List.nil_append]
          refine skipWs_allWs_cons hlead ?_ _
          decide
        | false =>
          refine pv_false f ?_
          rw [show (prettyPrint depth (JsonValue.bool false)).data =
            'f' :: 'a' :: 'l' :: 's' :: 'e' :: ([] : List Char) from rfl]
          simp only [List.append_assoc, List.cons_append, List.nil_append]
          refine skipWs_allWs_cons hlead ?_ _
          decide
      | str s =>
        have hskip : skipWs (lead ++ (prettyPrint depth (JsonValue.str s)).data ++ rest) =
            '"' :: ((s.data.map jsonEscapeChar).flatten ++ '"' :: rest) := by
          rw [show (prettyPrint depth (JsonValue.str s)).data =
            '"' :: (jsonEscape s ++ ['"']) from rfl]
          simp only [jsonEscape, List.append_assoc, List.cons_append,
            List.singleton_append, List.nil_append]
          refine skipWs_allWs_cons hlead ?_ _
          decide
        rw [pv_str f hskip, parseStringBody_jsonEscape s.data f rest (by
          simp only [jsize] at hsize; omega)]
        rfl
      | num n =>
        by_cases hneg : n < 0
        · have hdata : (prettyPrint depth (JsonValue.num n)).data =
              '-' :: natDigits n.natAbs := by
            simp [prettyPrint, jsonNumText, intToDecimal, hneg, data_mk]
          have hskip : skipWs (lead ++ (prettyPrint depth (JsonValue.num n)).data ++ rest) =
              '-' :: (natDigits n.natAbs ++ rest) := by
            rw [hdata]
            simp only [List.append_assoc, List.cons_append]
            refine skipWs_allWs_cons hlead ?_ _
            decide
          rw [pv_neg f hskip, parseNatNum_natDigits n.natAbs hrest]
          have hres : -((n.natAbs : Int)) = n := by omega
          show some (JsonValue.num (-((n.natAbs : Int))), rest) = some (JsonValue.num n, rest)
          rw [hres]
        · have hdata : (prettyPrint depth (JsonValue.num n)).data = natDigits n.toNat := by
            simp [prettyPrint, jsonNumText, intToDecimal, hneg, natToDecimal, data_mk]
          obtain ⟨k, tail, hk, hd⟩ := natDigits_head n.toNat
          have hskip : skipWs (lead ++ (prettyPrint depth (JsonValue.num n)).data ++ rest) =
              digitChar k :: (tail ++ rest) := by
            rw [hdata, hd]
            simp only [List.append_assoc, List.cons_append]
            exact skipWs_allWs_cons hlead (digitChar_not_ws hk) _
          rw [pv_digitChar f hk hskip]
          rw [show digitChar k :: (tail ++ rest) = natDigits n.toNat ++ rest from by
            rw [hd]; rfl]
          rw [parseNatNum_natDigits n.toNat hrest]
          have hres : ((n.toNat : Int)) = n := by omega
          show some (JsonValue.num ((n.toNat : Int)), rest) = some (JsonValue.num n, rest)
          rw [hres]
      | arr elems =>
        cases elems with
        | nil =>
          have hskip1 : skipWs (lead ++ (prettyPrint depth (JsonValue.arr [])).data ++ rest) =
              '[' :: (']' :: rest) := by
            rw [show (prettyPrint depth (JsonValue.arr [])).data =
              '[' :: ']' :: ([] : List Char) from rfl]
            simp only [List.append_assoc, List.cons_append, List.nil_append]
            refine skipWs_allWs_cons hlead ?_ _
            decide
          rw [pv_arr f hskip1]
          obtain ⟨f1, rfl⟩ : ∃ f1, f = f1 + 1 := by
            refine ⟨f - 1, ?_⟩
            simp only [jsize, jsizeElems] at hsize
            omega
          exact pab_empty f1 (skipWs_cons_of_not_ws
            (show isJsonWs ']' = false from by decide) rest)
        | cons x xs =>
          have hdata : (prettyPrint depth (JsonValue.arr (x :: xs))).data =
              '[' :: '\n' :: ((prettyPrintElems (depth + 1) (x :: xs)).data ++
                '\n' :: (indentChars depth ++ [']'])) := by
            simp [prettyPrint, data_mk]
          have hskip1 : skipWs (lead ++
              (prettyPrint depth (JsonValue.arr (x :: xs))).data ++ rest) =
              '[' :: ('\n' :: ((prettyPrintElems (depth + 1) (x :: xs)).data ++
                '\n' :: (indentChars depth ++ ']' :: rest))) := by
            rw [hdata]
            simp only [List.append_assoc, List.cons_append, List.singleton_append,
              List.nil_append]
            refine skipWs_allWs_cons hlead ?_ _
            decide
          rw [pv_arr f hskip1]
          obtain ⟨f1, rfl⟩ : ∃ f1, f = f1 + 1 := by
            refine ⟨f - 1, ?_⟩
            simp only [jsize] at hsize
            omega
          obtain ⟨c0, cs0, hpp, hc0ws, hc0br, hc0brc⟩ := prettyPrint_head (depth + 1) x
          obtain ⟨Y, hY⟩ : ∃ Y, (prettyPrintElems (depth + 1) (x :: xs)).data =
              indentChars (depth + 1) ++ ((prettyPrint (depth + 1) x).data ++ Y) := by
            cases xs with
            | nil => exact ⟨[], by simp [prettyPrintElems, data_mk]⟩
            | cons y ys =>
              exact ⟨',' :: '\n' :: (prettyPrintElems (depth + 1) (y :: ys)).data,
                by simp [prettyPrintElems, data_mk]⟩
          have hskipX : skipWs ('\n' :: ((prettyPrintElems (depth + 1) (x :: xs)).data ++
              '\n' :: (indentChars depth ++ ']' :: rest))) =
              c0 :: (cs0 ++ (Y ++ '\n' :: (indentChars depth ++ ']' :: rest))) := by
            rw [hY, hpp]
            rw [show '\n' :: ((indentChars (depth + 1) ++ ((c0 :: cs0) ++ Y)) ++
              '\n' :: (indentChars depth ++ ']' :: rest)) =
              ('\n' :: indentChars (depth + 1)) ++
                c0 :: (cs0 ++ (Y ++ '\n' :: (indentChars depth ++ ']' :: rest))) from by
              simp]
            exact skipWs_allWs_cons (allWs_nl_indent (depth + 1)) hc0ws _
          rw [pab_loop f1 hskipX hc0br]
          rw [show '\n' :: ((prettyPrintElems (depth + 1) (x :: xs)).data ++
            '\n' :: (indentChars depth ++ ']' :: rest)) =
            ['\n'] ++ (prettyPrintElems (depth + 1) (x :: xs)).data ++
              ('\n' :: indentChars depth) ++ ']' :: rest from by simp]
          rw [(ih f1 (by omega)).2.1 (x :: xs) (depth + 1) ['\n']
            ('\n' :: indentChars depth) rest (by simp)
            (by simp only [jsize] at hsize; omega) allWs_newline (allWs_nl_indent depth)]
          rfl
      | obj entries =>
        cases entries with
        | nil =>
          have hskip1 : skipWs (lead ++ (prettyPrint depth (JsonValue.obj [])).data ++ rest) =
              '\x7b' :: ('\x7d' :: rest) := by
            rw [show (prettyPrint depth (JsonValue.obj [])).data =
              '\x7b' :: '\x7d' :: ([] : List Char) from rfl]
            simp only [List.append_assoc, List.cons_append, List.nil_append]
            refine skipWs_allWs_cons hlead ?_ _
            decide
          rw [pv_obj f hskip1]
          obtain ⟨f1, rfl⟩ : ∃ f1, f = f1 + 1 := by
            refine ⟨f - 1, ?_⟩
            simp only [jsize, jsizeMembers] at hsize
            omega
          exact pob_empty f1 (skipWs_cons_of_not_ws
            (show isJsonWs '\x7d' = false from by decide) rest)
        | cons kv kvs =>
          have hdata : (prettyPrint depth (JsonValue.obj (kv :: kvs))).data =
              '\x7b' :: '\n' :: ((prettyPrintMembers (depth + 1) (kv :: kvs)).data ++
                '\n' :: (indentChars depth ++ ['\x7d'])) := by
            simp [prettyPrint, data_mk]
          have hskip1 : skipWs (lead ++
              (prettyPrint depth (JsonValue.obj (kv :: kvs))).data ++ rest) =
              '\x7b' :: ('\n' :: ((prettyPrintMembers (depth + 1) (kv :: kvs)).data ++
                '\n' :: (indentChars depth ++ '\x7d' :: rest))) := by
            rw [hdata]
            simp only [List.append_assoc, List.cons_append, List.singleton_append,
              List.nil_append]
            refine skipWs_allWs_cons hlead ?_ _
            decide
          rw [pv_obj f hskip1]
          obtain ⟨f1, rfl⟩ : ∃ f1, f = f1 + 1 := by
            refine ⟨f - 1, ?_⟩
            simp only [jsize] at hsize
            omega
          obtain ⟨Y, hY⟩ : ∃ Y, (prettyPrintMembers (depth + 1) (kv :: kvs)).data =
              indentChars (depth + 1) ++ ('"' :: Y) := by
            cases kvs with
            | nil =>
              exact ⟨jsonEscape kv.1 ++ '"' :: ':' :: ' ' ::
                (prettyPrint (depth + 1) kv.2).data,
                by simp [prettyPrintMembers, quoteJsonString, data_mk]⟩
            | cons kv2 kvs2 =>
              exact ⟨jsonEscape kv.1 ++ '"' :: ':' :: ' ' ::
                ((prettyPrint (depth + 1) kv.2).data ++ ',' :: '\n' ::
                  (prettyPrintMembers (depth + 1) (kv2 :: kvs2)).data),
                by simp [prettyPrintMembers, quoteJsonString, data_mk]⟩
          have hskipX : skipWs ('\n' :: ((prettyPrintMembers (depth + 1) (kv :: kvs)).data ++
              '\n' :: (indentChars depth ++ '\x7d' :: rest))) =
              '"' :: (Y ++ '\n' :: (indentChars depth ++ '\x7d' :: rest)) := by
            rw [hY]
            rw [show '\n' :: ((indentChars (depth + 1) ++ '"' :: Y) ++
              '\n' :: (indentChars depth ++ '\x7d' :: rest)) =
              ('\n' :: indentChars (depth + 1)) ++
                '"' :: (Y ++ '\n' :: (indentChars depth ++ '\x7d' :: rest)) from by simp]
            exact skipWs_allWs_cons (allWs_nl_indent (depth + 1))
              (show isJsonWs '"' = false from by decide) _
          rw [pob_loop f1 hskipX (by decide)]
          rw [show '\n' :: ((prettyPrintMembers (depth + 1) (kv :: kvs)).data ++
            '\n' :: (indentChars depth ++ '\x7d' :: rest)) =
            ['\n'] ++ (prettyPrintMembers (depth + 1) (kv :: kvs)).data ++
              ('\n' :: indentChars depth) ++ '\x7d' :: rest from by simp]
          rw [(ih f1 (by omega)).2.2 (kv :: kvs) (depth + 1) ['\n']
            ('\n' :: indentChars depth) rest (by simp)
            (by simp only [jsize] at hsize; omega) allWs_newline (allWs_nl_indent depth)]
          rfl
    · intro elems depth lead tail rest hne hsize hlead htail
      cases elems with
      | nil => exact absurd rfl hne
      | cons x xs =>
        obtain ⟨f, rfl⟩ : ∃ f, fuel = f + 1 := by
          refine ⟨fuel - 1, ?_⟩
          have := jsize_pos x
          simp only [jsizeElems] at hsize
          omega
        cases xs with
        | nil =>
          have hdecomp : (prettyPrintElems depth [x]).data =
              indentChars depth ++ (prettyPrint depth x).data := by
            simp [prettyPrintElems, data_mk]
          have hval := (ih f (by omega)).1 x depth (lead ++ indentChars depth)
            (tail ++ ']' :: rest)
            (by simp only [jsizeElems] at hsize; omega)
            (allWs_append hlead (allWs_indentChars depth))
            (noDigitHead_of_allWs_append htail (by decide) rest)
          rw [show lead ++ (prettyPrintElems depth [x]).data ++ tail ++ ']' :: rest =
            lead ++ indentChars depth ++ (prettyPrint depth x).data ++
              (tail ++ ']' :: rest) from by rw [hdecomp]; simp]
          rw [parseElemsLoop]
          simp only [List.append_assoc, List.cons_append, List.nil_append,
            List.singleton_append] at hval
          simp [hval]
          rw [skipWs_allWs_cons htail (show isJsonWs ']' = false from by decide) rest]
          rfl
        | cons y ys =>
          have hdecomp : (prettyPrintElems depth (x :: y :: ys)).data =
              indentChars depth ++ ((prettyPrint depth x).data ++
                ',' :: '\n' :: (prettyPrintElems depth (y :: ys)).data) := by
            simp [prettyPrintElems, data_mk]
          have hval := (ih f (by omega)).1 x depth (lead ++ indentChars depth)
            (',' :: '\n' :: ((prettyPrintElems depth (y :: ys)).data ++ tail ++ ']' :: rest))
            (by simp only [jsizeElems] at hsize; omega)
            (allWs_append hlead (allWs_indentChars depth)) rfl
          have hrec := (ih f (by omega)).2.1 (y :: ys) depth ['\n'] tail rest (by simp)
            (by simp only [jsizeElems] at hsize ⊢; omega) allWs_newline htail
          rw [show lead ++ (prettyPrintElems depth (x :: y :: ys)).data ++ tail ++
            ']' :: rest =
            lead ++ indentChars depth ++ (prettyPrint depth x).data ++
              (',' :: '\n' :: ((prettyPrintElems depth (y :: ys)).data ++ tail ++ ']' :: rest))
            from by rw [hdecomp]; simp]
          rw [parseElemsLoop]
          simp only [List.append_assoc, List.cons_append, List.nil_append,
            List.singleton_append] at hval hrec
          simp [hval]
          rw [skipWs_cons_of_not_ws (show isJsonWs ',' = false from by decide)]
          rw [show '\n' :: ((prettyPrintElems depth (y :: ys)).data ++
            (tail ++ ']' :: rest)) = ['\n'] ++ (prettyPrintElems depth (y :: ys)).data ++
              (tail ++ ']' :: rest) from by simp]
          simp [hrec]
    · intro kvs depth lead tail rest hne hsize hlead htail
      cases kvs with
      | nil => exact absurd rfl hne
      | cons kv kvs2 =>
        obtain ⟨k, v⟩ := kv
        obtain ⟨f, rfl⟩ : ∃ f, fuel = f + 1 := by
          refine ⟨fuel - 1, ?_⟩
          simp only [jsizeMembers] at hsize
          omega
        have hkey : k.data.length + 1 ≤ f := by
          simp only [jsizeMembers] at hsize
          omega
        cases kvs2 with
        | nil =>
          have hdecomp : (prettyPrintMembers depth [(k, v)]).data =
              indentChars depth ++ ('"' :: ((k.data.map jsonEscapeChar).flatten ++
                '"' :: ':' :: ' ' :: (prettyPrint depth v).data)) := by
            simp [prettyPrintMembers, quoteJsonString, jsonEscape, data_mk]
          have hskip : skipWs (lead ++ (prettyPrintMembers depth [(k, v)]).data ++ tail ++
              '\x7d' :: rest) = '"' :: ((k.data.map jsonEscapeChar).flatten ++
                '"' :: ':' :: ' ' :: ((prettyPrint depth v).data ++
                  (tail ++ '\x7d' :: rest))) := by
            rw [hdecomp]
            simp only [List.append_assoc, List.cons_append, List.nil_append]
            rw [skipWs_append_of_allWs hlead, skipWs_append_of_allWs (allWs_indentChars depth),
              skipWs_cons_of_not_ws (show isJsonWs '"' = false from by decide)]
          have hsb := parseStringBody_jsonEscape k.data f
            (':' :: ' ' :: ((prettyPrint depth v).data ++ (tail ++ '\x7d' :: rest))) hkey
          have hval := (ih f (by omega)).1 v depth [' '] (tail ++ '\x7d' :: rest)
            (by simp only [jsizeMembers] at hsize; omega) allWs_space
            (noDigitHead_of_allWs_append htail (by decide) rest)
          simp only [List.append_assoc, List.cons_append, List.nil_append,
            List.singleton_append] at hval
          rw [parseMembersLoop, hskip]
          simp [hsb]
          rw [skipWs_cons_of_not_ws (show isJsonWs ':' = false from by decide)]
          simp [hval]
          rw [skipWs_allWs_cons htail (show isJsonWs '\x7d' = false from by decide) rest]
          rfl
        | cons kv2 kvs3 =>
          have hdecomp : (prettyPrintMembers depth ((k, v) :: kv2 :: kvs3)).data =
              indentChars depth ++ ('"' :: ((k.data.map jsonEscapeChar).flatten ++
                '"' :: ':' :: ' ' :: ((prettyPrint depth v).data ++ ',' :: '\n' ::
                  (prettyPrintMembers depth (kv2 :: kvs3)).data))) := by
            simp [prettyPrintMembers, quoteJsonString, jsonEscape, data_mk]
          have hskip : skipWs (lead ++
              (prettyPrintMembers depth ((k, v) :: kv2 :: kvs3)).data ++ tail ++
              '\x7d' :: rest) = '"' :: ((k.data.map jsonEscapeChar).flatten ++
                '"' :: ':' :: ' ' :: ((prettyPrint depth v).data ++ ',' :: '\n' ::
                  ((prettyPrintMembers depth (kv2 :: kvs3)).data ++
                    (tail ++ '\x7d' :: rest)))) := by
            rw [hdecomp]
            simp only [List.append_assoc, List.cons_append, List.nil_append]
            rw [skipWs_append_of_allWs hlead, skipWs_append_of_allWs (allWs_indentChars depth),
              skipWs_cons_of_not_ws (show isJsonWs '"' = false from by decide)]
          have hsb := parseStringBody_jsonEscape k.data f
            (':' :: ' ' :: ((prettyPrint depth v).data ++ ',' :: '\n' ::
              ((prettyPrintMembers depth (kv2 :: kvs3)).data ++ (tail ++ '\x7d' :: rest))))
            hkey
          have hval := (ih f (by omega)).1 v depth [' ']
            (',' :: '\n' :: ((prettyPrintMembers depth (kv2 :: kvs3)).data ++
              (tail ++ '\x7d' :: rest)))
            (by simp only [jsizeMembers] at hsize; omega) allWs_space rfl
          have hrec := (ih f (by omega)).2.2 (kv2 :: kvs3) depth ['\n'] tail rest (by simp)
            (by simp only [jsizeMembers] at hsize ⊢; omega) allWs_newline htail
          simp only [List.append_assoc, List.cons_append, List.nil_append,
            List.singleton_append] at hval hrec
          rw [parseMembersLoop, hskip]
          simp [hsb]
          rw [skipWs_cons_of_not_ws (show isJsonWs ':' = false from by decide)]
          simp [hval]
          rw [skipWs_cons_of_not_ws (show isJsonWs ',' = false from by decide)]
          rw [show '\n' :: ((prettyPrintMembers depth (kv2 :: kvs3)).data ++
            (tail ++ '\x7d' :: rest)) = ['\n'] ++
              (prettyPrintMembers depth (kv2 :: kvs3)).data ++ (tail ++ '\x7d' :: rest)
            from by simp]
          simp [hrec]

theorem jsonEscapeChar_len (c : Char) : 1 ≤ (jsonEscapeChar c).length := by
  unfold jsonEscapeChar
  split_ifs <;> simp

theorem jsonEscape_len (s : List Char) : s.length ≤ ((s.map jsonEscapeChar).flatten).length := by
  induction s with
  | nil => simp
  | cons c s ih =>
    simp only [List.map_cons, List.flatten_cons, List.length_append, List.length_cons]
    have := jsonEscapeChar_len c
    omega

/-- Fuel sufficiency: the parse budget of a value is bounded by the length of
its pretty print, so the input-length fuel of `jsonParse` is always enough. -/
theorem jsize_le_print (N : Nat) :
    (∀ v, jsize v ≤ N → ∀ d, jsize v ≤ (prettyPrint d v).data.length + 1) ∧
    (∀ elems, jsizeElems elems ≤ N →
      ∀ d, jsizeElems elems ≤ (prettyPrintElems d elems).data.length + 3) ∧
    (∀ kvs, jsizeMembers kvs ≤ N →
      ∀ d, jsizeMembers kvs ≤ (prettyPrintMembers d kvs).data.length + 3) := by
  induction N using Nat.strong_induction_on with
  | _ N ih =>
    refine ⟨?_, ?_, ?_⟩
    · intro v hv d
      cases v with
      | null => simp [jsize, prettyPrint]
      | bool b => cases b <;> simp [jsize, prettyPrint]
      | num n => simp [jsize]
      | str s =>
        have := jsonEscape_len s.data
        simp only [jsize, prettyPrint, quoteJsonString, data_mk, List.length_cons,
          List.length_append, List.length_singleton, jsonEscape]
        omega
      | arr elems =>
        cases elems with
        | nil => simp [jsize, jsizeElems, prettyPrint]
        | cons x xs =>
          have hN : 1 ≤ N := le_trans (jsize_pos _) hv
          have hE := (ih (N - 1) (by omega)).2.1 (x :: xs)
            (by simp only [jsize] at hv; omega) (d + 1)
          simp only [jsize, prettyPrint, String.data_append, data_mk,
            List.length_append, List.length_cons] at hE ⊢
          omega
      | obj entries =>
        cases entries with
        | nil => simp [jsize, jsizeMembers, prettyPrint]
        | cons kv kvs =>
          have hN : 1 ≤ N := le_trans (jsize_pos _) hv
          have hM := (ih (N - 1) (by omega)).2.2 (kv :: kvs)
            (by simp only [jsize] at hv; omega) (d + 1)
          simp only [jsize, prettyPrint, String.data_append, data_mk,
            List.length_append, List.length_cons] at hM ⊢
          omega
    · intro elems he d
      cases elems with
      | nil => simp [jsizeElems]
      | cons x xs =>
        have hx := jsize_pos x
        have hN : 1 ≤ N := by simp only [jsizeElems] at he; omega
        have hV := (ih (N - 1) (by omega)).1 x
          (by simp only [jsizeElems] at he; omega) d
        cases xs with
        | nil =>
          simp only [jsizeElems, prettyPrintElems, String.data_append, data_mk,
            List.length_append] at hV ⊢
          omega
        | cons y ys =>
          have hE := (ih (N - 1) (by omega)).2.1 (y :: ys)
            (by simp only [jsizeElems] at he ⊢; omega) d
          simp only [jsizeElems, prettyPrintElems, String.data_append, data_mk,
            List.length_append, List.length_cons] at hV hE ⊢
          omega
    · intro kvs hm d
      cases kvs with
      | nil => simp [jsizeMembers]
      | cons kv kvs2 =>
        have hx := jsize_pos kv.2
        have hN : 1 ≤ N := by simp only [jsizeMembers] at hm; omega
        have hV := (ih (N - 1) (by omega)).1 kv.2
          (by simp only [jsizeMembers] at hm; omega) d
        have hq := jsonEscape_len kv.1.data
        cases kvs2 with
        | nil =>
          simp only [jsizeMembers, prettyPrintMembers, String.data_append, data_mk,
            quoteJsonString, jsonEscape, List.length_append, List.length_cons,
            List.length_singleton] at hV ⊢
          omega
        | cons kv2 kvs3 =>
          have hM := (ih (N - 1) (by omega)).2.2 (kv2 :: kvs3)
            (by simp only [jsizeMembers] at hm ⊢; omega) d
          simp only [jsizeMembers, prettyPrintMembers, String.data_append, data_mk,
            quoteJsonString, jsonEscape, List.length_append, List.length_cons,
            List.length_singleton] at hV hM ⊢
          omega

theorem jsize_le_print_all (v : JsonValue) (d : Nat) :
    jsize v ≤ (prettyPrint d v).data.length + 1 :=
  (jsize_le_print (jsize v)).1 v le_rfl d

/-- Round trip: parsing the two-space pretty print of any JSON value gives
the value back. -/
theorem jsonParse_prettyPrint (v : JsonValue) :
    jsonParse (prettyPrint 0 v) = some v := by
  have h := (parse_print_main ((prettyPrint 0 v).data.length + 1)).1 v 0 [] []
    (jsize_le_print_all v 0) allWs_nil rfl
  simp only [List.nil_append, List.append_nil] at h
  unfold jsonParse
  rw [h]
  rfl

/-! ## Supporting lemmas for the claims -/

theorem intToDecimal_ne_empty (n : Int) : intToDecimal n ≠ "" := by
  unfold intToDecimal
  split
  · intro h
    have h2 := congrArg String.data h
    simp [data_mk] at h2
  · intro h
    have h2 := congrArg String.data h
    unfold natToDecimal at h2
    simp [data_mk] at h2
    exact natDigits_ne_nil _ h2

/-- C1 counterexample: for the document of the claim the program's
timestamp is the decimal text `"1700000000"`, not the ISO-8601 form of
Unix time 1,700,000,000 seconds, which is `"2023-11-14T22:13:20.000Z"`. -/
theorem C1_counterexample :
    ((loadText "\x7b\"events\":[\x7b\"id\":\"1\",\"level\":\"ERR\",\"timestamp\":1700000000,\"message\":\"x\"\x7d]\x7d"
        "log.json" initialViewerState).eventViews.map (fun e => e.timestamp) =
      ["1700000000"]) ∧
    isoOfEpochMs (1700000000 * 1000) = "2023-11-14T22:13:20.000Z" ∧
    ("1700000000" : String) ≠ "2023-11-14T22:13:20.000Z" := by
  refine ⟨rfl, rfl, by decide⟩

/-- C1 (amended): a numeric timestamp candidate always coerces to its
non-empty decimal text, so `normalizeTimestamp` returns that text verbatim
and the seconds/milliseconds ISO branch is unreachable for numbers. -/
theorem C1_timestamp_amended (n : Int) :
    normalizeTimestamp (some (JsonValue.num n)) = intToDecimal n := by
  unfold normalizeTimestamp
  simp only [valueToInlineStringO, valueToInlineString]
  rw [if_pos (intToDecimal_ne_empty n)]

/-- C2: the filtered list is exactly the in-order filter of the normalized
list under the spec's inclusion predicate (stated as a pointwise equivalence
with the code's `eventMatches`); it is a subsequence, its length is bounded,
and with all four state components at their defaults it is the whole list. -/
theorem C2_filter_refinement (s : ViewerState) :
    ((applyFilters s).filteredEvents = s.eventViews.filter
        (eventMatches (jsToLower (jsTrim s.searchText)) s.selectedLevels
          s.selectedApplications s.selectedContexts)) ∧
    (∀ e, eventMatches (jsToLower (jsTrim s.searchText)) s.selectedLevels
          s.selectedApplications s.selectedContexts e = true ↔
        includeSpec (jsToLower (jsTrim s.searchText)) s.selectedLevels
          s.selectedApplications s.selectedContexts e) ∧
    List.Sublist (applyFilters s).filteredEvents s.eventViews ∧
    (applyFilters s).filteredEvents.length ≤ s.eventViews.length ∧
    (s.searchText = "" ∧ s.selectedLevels = [] ∧ s.selectedApplications = [] ∧
        s.selectedContexts = [] →
      (applyFilters s).filteredEvents = s.eventViews) := by
  have hfe : (applyFilters s).filteredEvents = s.eventViews.filter
      (eventMatches (jsToLower (jsTrim s.searchText)) s.selectedLevels
        s.selectedApplications s.selectedContexts) := rfl
  refine ⟨hfe, ?_, ?_, ?_, ?_⟩
  · intro e
    simp only [eventMatches, includeSpec, jsIncludes, Bool.and_eq_true,
      Bool.or_eq_true, beq_iff_eq, List.length_eq_zero, decide_eq_true_eq,
      List.elem_iff]
    tauto
  · rw [hfe]
    exact List.filter_sublist _
  · rw [hfe]
    exact (List.filter_sublist _).length_le
  · rintro ⟨h1, h2, h3, h4⟩
    rw [hfe, h1, h2, h3, h4]
    exact List.filter_eq_self.mpr (fun e _ => rfl)

/-- C7: blank input and parse failures both land in a state that is the
fully reset view-model carrying only a non-empty user-facing error
message. -/
theorem C7_error_reset (rawText fileName : String) (s : ViewerState)
    (h : jsTrim rawText = "" ∨ jsonParse rawText = none) :
    ∃ msg : String, msg ≠ "" ∧
      loadText rawText fileName s =
        { initialViewerState with parseError := "Invalid JSON file: " ++ msg } := by
  by_cases hb : jsTrim rawText = ""
  · refine ⟨"The selected file is empty.", by decide, ?_⟩
    simp only [loadText]
    rw [if_pos hb]
    cases s
    rfl
  · have hp : jsonParse rawText = none := h.resolve_left hb
    refine ⟨jsonSyntaxErrorMessage, by decide, ?_⟩
    simp only [loadText]
    rw [if_neg hb, hp]
    cases s
    rfl

/-- C7 witness: the non-JSON text `"not json"` at the initial state. -/
theorem C7_error_reset_witness :
    ∃ msg : String, msg ≠ "" ∧
      loadText "not json" "log2.json" initialViewerState =
        { initialViewerState with parseError := "Invalid JSON file: " ++ msg } :=
  C7_error_reset "not json" "log2.json" initialViewerState (Or.inr rfl)

/-- C8 counterexample: a raw event that is not an object (here the number
`42`) serializes as the empty object, so parsing `rawJson` back yields
`\x7b\x7d`, not the original event. -/
theorem C8_counterexample :
    jsonParse ((toEventView (JsonValue.num 42) 0).rawJson) = some (JsonValue.obj []) ∧
    JsonValue.obj [] ≠ JsonValue.num 42 :=
  ⟨rfl, fun h => JsonValue.noConfusion h⟩

/-- C8 (amended): for raw events that are objects — the only shape the
claim's record model covers — serialization is lossless: parsing the
normalized event's `rawJson` yields the original raw event. -/
theorem C8_rawjson_roundtrip (event : JsonValue) (index : Nat)
    (h : (asRecord event).isSome = true) :
    jsonParse ((toEventView event index).rawJson) = some event := by
  cases event with
  | obj kvs =>
    have hraw : (toEventView (JsonValue.obj kvs) index).rawJson =
        prettyPrint 0 (JsonValue.obj kvs) := rfl
    rw [hraw]
    exact jsonParse_prettyPrint (JsonValue.obj kvs)
  | null => simp [asRecord] at h
  | bool b => simp [asRecord] at h
  | num n => simp [asRecord] at h
  | str str2 => simp [asRecord] at h
  | arr xs => simp [asRecord] at h

/-- C8 witness: a concrete one-key object event round-trips. -/
theorem C8_rawjson_roundtrip_witness :
    jsonParse ((toEventView (JsonValue.obj [("a", JsonValue.num 1)]) 0).rawJson) =
      some (JsonValue.obj [("a", JsonValue.num 1)]) :=
  C8_rawjson_roundtrip (JsonValue.obj [("a", JsonValue.num 1)]) 0 rfl

/-- C9: clearing filters empties all four filter components, restores the
filtered list to the full normalized list, and leaves the normalized
events, the option catalogs and the metadata unchanged. -/
theorem C9_clear_filters (s : ViewerState) :
    (clearFilters s).searchText = "" ∧
    (clearFilters s).selectedLevels = [] ∧
    (clearFilters s).selectedApplications = [] ∧
    (clearFilters s).selectedContexts = [] ∧
    (clearFilters s).filteredEvents = s.eventViews ∧
    (clearFilters s).eventViews = s.eventViews ∧
    (clearFilters s).levelOptions = s.levelOptions ∧
    (clearFilters s).applicationOptions = s.applicationOptions ∧
    (clearFilters s).contextOptions = s.contextOptions ∧
    (clearFilters s).metaEntries = s.metaEntries ∧
    (clearFilters s).prettyMetaBlocks = s.prettyMetaBlocks := by
  refine ⟨rfl, rfl, rfl, rfl, ?_, rfl, rfl, rfl, rfl, rfl, rfl⟩
  show List.filter _ s.eventViews = s.eventViews
  exact List.filter_eq_self.mpr (fun e _ => rfl)

theorem applyFilters_expanded_inv (s : ViewerState) :
    expandedInvariant (applyFilters s) := by
  unfold expandedInvariant applyFilters
  by_cases hc : (s.eventViews.filter
      (eventMatches (jsToLower (jsTrim s.searchText)) s.selectedLevels
        s.selectedApplications s.selectedContexts)).any
      (fun event => some event.uid == s.expandedEventUid) = true
  · right
    obtain ⟨e, he, hbeq⟩ := List.any_eq_true.mp hc
    refine ⟨e, he, ?_⟩
    simp only [hc, if_true]
    exact eq_of_beq hbeq
  · left
    simp only [hc]
    rfl

/-- C10: after every operation that recomputes the filtered list and after
every reset, the expanded row is either absent or one of the filtered
events. -/
theorem C10_expanded_invariant (s : ViewerState) (filterType : FilterType)
    (choice : String) (checked : Bool) (error : Option String)
    (rawText fileName fileName2 : String) (parsed : JsonValue) :
    expandedInvariant (applyFilters s) ∧
    expandedInvariant (onFilterChange s) ∧
    expandedInvariant (clearFilters s) ∧
    expandedInvariant (toggleFilterOption s filterType choice checked) ∧
    expandedInvariant (processJson parsed fileName2 s) ∧
    expandedInvariant (resetViewerState s) ∧
    expandedInvariant (handleParseError error s) ∧
    expandedInvariant (loadText rawText fileName s) := by
  refine ⟨applyFilters_expanded_inv s, applyFilters_expanded_inv s,
    applyFilters_expanded_inv _, ?_, applyFilters_expanded_inv _,
    Or.inl rfl, Or.inl rfl, ?_⟩
  · cases filterType with
    | level => exact applyFilters_expanded_inv _
    | application => exact applyFilters_expanded_inv _
    | context => exact applyFilters_expanded_inv _
  · simp only [loadText]
    by_cases hb : jsTrim rawText = ""
    · rw [if_pos hb]
      exact Or.inl rfl
    · rw [if_neg hb]
      cases hp : jsonParse rawText with
      | some parsed2 => exact applyFilters_expanded_inv _
      | none => exact Or.inl rfl

theorem levelTokenMatch_ne_empty {s : String} (h : levelTokenMatch s = true) :
    s ≠ "" := by
  intro he
  subst he
  simp [levelTokenMatch] at h

theorem normalizeLevelSpec_eq (value : String) :
    normalizeLevelSpec value =
      if normalizeLevel value = "" then none else some (normalizeLevel value) := by
  simp only [normalizeLevelSpec, normalizeLevel]
  by_cases h1 : (jsIncludes (jsToUpper value) "CRITICAL" ||
      jsIncludes (jsToUpper value) "FATAL") = true
  · simp [h1]
  · simp only [h1]
    by_cases h2 : (jsIncludes (jsToUpper value) "ERROR" || jsToUpper value == "ERR") = true
    · simp [h1, h2]
    · simp only [h2]
      by_cases h3 : jsIncludes (jsToUpper value) "WARN" = true
      · simp [h1, h2, h3]
      · simp only [h3]
        by_cases h4 : jsIncludes (jsToUpper value) "DEBUG" = true
        · simp [h1, h2, h3, h4]
        · simp only [h4]
          by_cases h5 : jsIncludes (jsToUpper value) "TRACE" = true
          · simp [h1, h2, h3, h4, h5]
          · simp only [h5]
            by_cases h6 : (jsIncludes (jsToUpper value) "INFO" ||
                jsToUpper value == "LOG") = true
            · simp [h1, h2, h3, h4, h5, h6]
            · simp only [h6]
              by_cases h7 : levelTokenMatch (jsToUpper value) = true
              · simp [h1, h2, h3, h4, h5, h6, h7, levelTokenMatch_ne_empty h7]
              · simp [h1, h2, h3, h4, h5, h6, h7]

theorem inferLevelSpecLoop_eq (candidates : List (Option JsonValue)) :
    inferLevelSpecLoop candidates = inferLevelLoop candidates := by
  induction candidates with
  | nil => rfl
  | cons c rest ih =>
    simp only [inferLevelSpecLoop, inferLevelLoop, normalizeLevelSpec_eq]
    by_cases ht : valueToInlineStringO c = ""
    · simp [ht, ih]
    · simp only [if_neg ht]
      by_cases hn : normalizeLevel (valueToInlineStringO c) = ""
      · simp [hn, ih]
      · simp [hn]

/-- C4: the level inference of the code coincides with the spec's ordered
candidate scan, and the code's level normalization (empty-string sentinel)
realizes the spec's normalization rules (rejection as `none`). -/
theorem C4_level_refinement (event : List (String × JsonValue))
    (data metaData : Option (List (String × JsonValue))) (value : String) :
    (inferLevel event data metaData = inferLevelSpecLoop
      [jsGetO metaData "level", jsGet event "level", jsGet event "severity",
       jsGetO data "level", jsGetO data "severity", jsGetO data "notificationType",
       jsGet event "channel"]) ∧
    (normalizeLevelSpec value =
      if normalizeLevel value = "" then none else some (normalizeLevel value)) ∧
    inferLevelSpecLoop [] = "UNKNOWN" :=
  ⟨(inferLevelSpecLoop_eq _).symm, normalizeLevelSpec_eq value, rfl⟩

theorem firstArray_append (xs ys : List (Option JsonValue)) :
    firstArray (xs ++ ys) =
      (match firstArray xs with
       | some r => some r
       | none => firstArray ys) := by
  induction xs with
  | nil => rfl
  | cons c rest ih =>
    match c with
    | none => exact ih
    | some .null => exact ih
    | some (.bool b) => exact ih
    | some (.num n) => exact ih
    | some (.str s) => exact ih
    | some (.arr a) => rfl
    | some (.obj kvs) => exact ih

/-- C5: the event-collection resolution of the code equals the spec's
five-rule first-match-wins procedure, for every parsed root value. -/
theorem C5_extract_events_refinement (parsed : JsonValue) :
    extractEvents parsed (asRecord parsed) = extractEventsSpec parsed := by
  cases parsed with
  | null => rfl
  | bool b => rfl
  | num n => rfl
  | str s => rfl
  | arr xs => rfl
  | obj kvs =>
    show (match firstArray
        ([jsGet kvs "events", jsGet kvs "logs", jsGet kvs "records",
          jsGet kvs "entries", jsGet kvs "items"] ++
         [jsGetO ((jsGet kvs "data").bind asRecord) "events",
          jsGetO ((jsGet kvs "data").bind asRecord) "logs",
          jsGetO ((jsGet kvs "payload").bind asRecord) "events",
          jsGetO ((jsGet kvs "payload").bind asRecord) "logs"]) with
      | some xs => xs
      | none => findEventLikeArray (kvs.map (fun kv : String × JsonValue => kv.2))) =
      (match firstArray [jsGet kvs "events", jsGet kvs "logs", jsGet kvs "records",
          jsGet kvs "entries", jsGet kvs "items"] with
       | some xs => xs
       | none =>
         match firstArray [jsGetO ((jsGet kvs "data").bind asRecord) "events",
             jsGetO ((jsGet kvs "data").bind asRecord) "logs",
             jsGetO ((jsGet kvs "payload").bind asRecord) "events",
             jsGetO ((jsGet kvs "payload").bind asRecord) "logs"] with
         | some xs => xs
         | none => findEventLikeArray (kvs.map (fun kv : String × JsonValue => kv.2)))
    rw [firstArray_append]
    cases firstArray [jsGet kvs "events", jsGet kvs "logs", jsGet kvs "records",
        jsGet kvs "entries", jsGet kvs "items"] with
    | some r => rfl
    | none =>
      cases firstArray [jsGetO ((jsGet kvs "data").bind asRecord) "events",
          jsGetO ((jsGet kvs "data").bind asRecord) "logs",
          jsGetO ((jsGet kvs "payload").bind asRecord) "events",
          jsGetO ((jsGet kvs "payload").bind asRecord) "logs"] with
      | some r => rfl
      | none => rfl

theorem takeWhile_all_append (p : Char → Bool) (xs ys : List Char) (y : Char)
    (hall : ∀ c ∈ xs, p c = true) (hy : p y = false) :
    (xs ++ y :: ys).takeWhile p = xs := by
  induction xs with
  | nil => simp [List.takeWhile_cons, hy]
  | cons x xs ih =>
    have hx := hall x (List.mem_cons_self x xs)
    simp [List.takeWhile_cons, hx,
      ih (fun c hc => hall c (List.mem_cons_of_mem _ hc))]

theorem toEventView_uid_digits (ev : JsonValue) (i : Nat) :
    ((toEventView ev i).uid).data.takeWhile (fun c => c.isDigit) = natDigits i := by
  obtain ⟨idText, h⟩ : ∃ idText, (toEventView ev i).uid =
      natToDecimal i ++ "-" ++ idText := ⟨_, rfl⟩
  rw [h, String.data_append, String.data_append]
  rw [show (natToDecimal i).data = natDigits i from rfl]
  rw [show ("-" : String).data = ['-'] from rfl]
  simp only [List.append_assoc, List.singleton_append]
  exact takeWhile_all_append _ _ _ _ (natDigits_all_digit i) (by decide)

/-- C3: within one loaded document the normalized events' uid values, built
as index-dash-id, are pairwise distinct for any raw event list. -/
theorem C3_uid_distinct (events : List JsonValue) :
    ((events.mapIdx (fun index event => toEventView event index)).map
        (fun e => e.uid)).Nodup := by
  refine List.pairwise_iff_getElem.mpr ?_
  intro i j hi hj hij heq
  simp only [List.getElem_map, List.getElem_mapIdx] at heq
  have h1 := congrArg (fun s : String => s.data.takeWhile (fun c => c.isDigit)) heq
  simp only [toEventView_uid_digits] at h1
  have h2 : natToDecimal i = natToDecimal j := congrArg String.mk h1
  exact absurd (natToDecimal_injective h2) (Nat.ne_of_lt hij)

theorem charListLe_total : ∀ a b : List Char, charListLe a b = true ∨ charListLe b a = true
  | [], _ => Or.inl rfl
  | _ :: _, [] => Or.inr rfl
  | a :: as, b :: bs => by
    by_cases h1 : a.toNat < b.toNat
    · left
      simp [charListLe, h1]
    · by_cases h2 : b.toNat < a.toNat
      · right
        simp [charListLe, h2]
      · rcases charListLe_total as bs with h | h
        · left
          simp [charListLe, h1, h2, h]
        · right
          simp [charListLe, h1, h2, h]

theorem charListLe_trans : ∀ a b c : List Char, charListLe a b = true →
    charListLe b c = true → charListLe a c = true
  | [], _, _, _, _ => rfl
  | _ :: _, [], _, hab, _ => by simp [charListLe] at hab
  | _ :: _, _ :: _, [], _, hbc => by simp [charListLe] at hbc
  | a :: as, b :: bs, c :: cs, hab, hbc => by
    simp only [charListLe] at hab hbc ⊢
    by_cases h1 : a.toNat < b.toNat
    · by_cases h2 : b.toNat < c.toNat
      · simp [show a.toNat < c.toNat from by omega]
      · by_cases h3 : c.toNat < b.toNat
        · simp [h2, h3] at hbc
        · simp [show a.toNat < c.toNat from by omega]
    · by_cases h4 : b.toNat < a.toNat
      · simp [h1, h4] at hab
      · by_cases h2 : b.toNat < c.toNat
        · simp [show a.toNat < c.toNat from by omega]
        · by_cases h3 : c.toNat < b.toNat
          · simp [h2, h3] at hbc
          · simp only [if_neg h1, if_neg h4] at hab
            simp only [if_neg h2, if_neg h3] at hbc
            have h5 : ¬ a.toNat < c.toNat := by omega
            have h6 : ¬ c.toNat < a.toNat := by omega
            simp only [if_neg h5, if_neg h6]
            exact charListLe_trans as bs cs hab hbc

theorem jsSortInsert_perm {α : Type} (le : α → α → Bool) (a : α) :
    ∀ l : List α, (jsSortInsert le a l).Perm (a :: l)
  | [] => List.Perm.refl _
  | b :: bs => by
    unfold jsSortInsert
    by_cases h : le a b = true
    · rw [if_pos h]
    · rw [if_neg h]
      exact ((jsSortInsert_perm le a bs).cons b).trans (List.Perm.swap a b bs)

theorem jsSort_perm {α : Type} (le : α → α → Bool) : ∀ l : List α, (jsSort le l).Perm l
  | [] => List.Perm.refl _
  | x :: xs => (jsSortInsert_perm le x (jsSort le xs)).trans ((jsSort_perm le xs).cons x)

theorem pairwise_jsSortInsert {α : Type} (le : α → α → Bool)
    (htot : ∀ a b, le a b = true ∨ le b a = true)
    (htrans : ∀ a b c, le a b = true → le b c = true → le a c = true)
    (x : α) : ∀ l : List α, l.Pairwise (fun a b => le a b = true) →
      (jsSortInsert le x l).Pairwise (fun a b => le a b = true)
  | [], _ => by simp [jsSortInsert]
  | b :: bs, h => by
    unfold jsSortInsert
    obtain ⟨hb, hbs⟩ := List.pairwise_cons.mp h
    by_cases hle : le x b = true
    · rw [if_pos hle]
      refine List.pairwise_cons.mpr ⟨?_, h⟩
      intro y hy
      rcases List.mem_cons.mp hy with rfl | hy2
      · exact hle
      · exact htrans x b y hle (hb y hy2)
    · rw [if_neg hle]
      have hbx : le b x = true := (htot x b).resolve_left hle
      refine List.pairwise_cons.mpr
        ⟨?_, pairwise_jsSortInsert le htot htrans x bs hbs⟩
      intro y hy
      rcases List.mem_cons.mp ((jsSortInsert_perm le x bs).mem_iff.mp hy) with rfl | hy2
      · exact hbx
      · exact hb y hy2

theorem pairwise_jsSort {α : Type} (le : α → α → Bool)
    (htot : ∀ a b, le a b = true ∨ le b a = true)
    (htrans : ∀ a b c, le a b = true → le b c = true → le a c = true) :
    ∀ l : List α, (jsSort le l).Pairwise (fun a b => le a b = true)
  | [] => List.Pairwise.nil
  | x :: xs => pairwise_jsSortInsert le htot htrans x (jsSort le xs)
      (pairwise_jsSort le htot htrans xs)

/-- C6 counterexample: a `browser` metadata key whose value is not an
object produces no pretty block, yet it still does not appear as a generic
entry — the pretty-key set is filtered unconditionally. -/
theorem C6_counterexample :
    buildPrettyMetaBlocks (some [("browser", JsonValue.str "chrome")]) = [] ∧
    extractMetaEntries (some [("browser", JsonValue.str "chrome")]) = [] :=
  ⟨rfl, rfl⟩

/-- C6 (amended): the generic entries are exactly the metadata keys outside
the fixed five-key set \x7bbrowser, agent, settings, templates, widgets\x7d —
excluded unconditionally, whether or not a pretty block is produced — as a
permutation sorted by key in code-point order. -/
theorem C6_meta_entries_amended (kvs : List (String × JsonValue)) :
    (((extractMetaEntries (some kvs)).map (fun e => e.key)).Perm
        ((kvs.filter (fun kv => !(["browser", "agent", "settings", "templates",
            "widgets"].contains kv.1))).map (fun kv => kv.1))) ∧
    (extractMetaEntries (some kvs)).Pairwise
      (fun a b => jsStrLe a.key b.key = true) := by
  constructor
  · have h1 : (extractMetaEntries (some kvs)).map (fun e => e.key) =
        (jsSort (fun a b => jsStrLe a.1 b.1)
          (kvs.filter (fun kv => !(["browser", "agent", "settings", "templates",
            "widgets"].contains kv.1)))).map (fun kv => kv.1) := by
      simp [extractMetaEntries, List.map_map]
    rw [h1]
    exact (jsSort_perm _ _).map _
  · have h2 := pairwise_jsSort (fun a b : String × JsonValue => jsStrLe a.1 b.1)
      (fun a b => charListLe_total a.1.data b.1.data)
      (fun a b c => charListLe_trans a.1.data b.1.data c.1.data)
      (kvs.filter (fun kv => !(["browser", "agent", "settings", "templates",
        "widgets"].contains kv.1)))
    exact List.pairwise_map.mpr h2

end WSLog
